import Mathlib

/-!
Verification development for the streaming file-carving engine of
`file_rescuer.py` (USB-drive image recovery).

Shallow embedding conventions:
* a byte is a `Nat`; a byte buffer (Python `bytes`) is a `List Nat`;
* `device.read(BLOCK_SIZE)` results are modelled as the successive entries of
  a `List (List Nat)`; an entry `[]` is a zero-byte read; after the list is
  exhausted the device keeps returning zero-byte reads (modelled by the drain
  phase), exactly as a file handle at end of stream does;
* the Pillow decode collaborator (`Image.open` / `img.verify`) is an oracle
  `List Nat → Option Unit`; `none` models a raised exception, `some ()` a
  successful verification;
* saving a file (`save_file` / `save_video_file`) is modelled by appending the
  buffer and its format tag to the `outputs` field of the scan state; the
  on-disk naming scheme and directory creation are I/O glue outside the model;
* the scan functions model the main read loop of `scan_device`
  (from line 679) and `scan_device_videos` (from line 1081); the raw-path
  resolution, device-size query and the initial 1 MiB test read (which rewinds
  with `seek(0)`) are platform glue around the loop.  The untraced scan
  functions model runs with `cancel_flag = None`, for which `is_cancelled()`
  is constantly `False`; cancellation is modelled separately by the traced
  variants further below.
-/

namespace FileRescuer

/-- JPEG header magic bytes FF D8. -/
def JPEG_HEADER : List Nat := [0xFF, 0xD8]

/-- JPEG footer magic bytes FF D9. -/
def JPEG_FOOTER : List Nat := [0xFF, 0xD9]

/-- PNG header magic bytes. -/
def PNG_HEADER : List Nat := [0x89, 0x50, 0x4E, 0x47, 0x0D, 0x0A, 0x1A, 0x0A]

/-- PNG IEND footer bytes. -/
def PNG_FOOTER : List Nat := [0x49, 0x45, 0x4E, 0x44, 0xAE, 0x42, 0x60, 0x82]

/-- The 4-byte literal "ftyp" used by MP4/MOV detection. -/
def MP4_HEADER_PATTERN : List Nat := [0x66, 0x74, 0x79, 0x70]

/-- The 4-byte literal "RIFF". -/
def AVI_HEADER : List Nat := [0x52, 0x49, 0x46, 0x46]

/-- The 4-byte literal "AVI " (with trailing space). -/
def AVI_SUBTYPE : List Nat := [0x41, 0x56, 0x49, 0x20]

/-- MKV (EBML) header magic bytes. -/
def MKV_HEADER : List Nat := [0x1A, 0x45, 0xDF, 0xA3]

/-- FLV header magic bytes ("FLV" plus version 1). -/
def FLV_HEADER : List Nat := [0x46, 0x4C, 0x56, 0x01]

/-- Maximum video candidate size (2 GiB). -/
def MAX_VIDEO_SIZE : Nat := 2 * 1024 * 1024 * 1024

/-- Block size of one device read (32 MiB).  The loop logic never inspects
this number; it only determines how the device slices a stream into blocks. -/
def BLOCK_SIZE : Nat := 32 * 1024 * 1024

/-- The pattern `pat` occurs in `d` at index `i` (a full, in-bounds match,
the notion underlying Python `bytes.find`). -/
def occursAt (d pat : List Nat) (i : Nat) : Prop := pat.isPrefixOf (d.drop i) = true

instance (d pat : List Nat) (i : Nat) : Decidable (occursAt d pat i) := by
  unfold occursAt; infer_instance

/-- Helper for `findMagicBytes`: scan indices `i, i+1, ...` (at most `fuel`
of them) for the first occurrence of `pat` in `d`. -/
def findFromAux (d pat : List Nat) : Nat → Nat → Option Nat
  | 0, _ => none
  | fuel + 1, i => if pat.isPrefixOf (d.drop i) then some i else findFromAux d pat fuel (i + 1)

/-- Embedding of `find_magic_bytes` (Python `data.find(magic_bytes, start_pos)`
wrapped to return `none` instead of `-1`).  For a nonempty pattern every
occurrence index is at most `d.length - pat.length`, so fuel
`d.length + 1 - startPos` scans every possible position. -/
def findMagicBytes (d pat : List Nat) (startPos : Nat) : Option Nat :=
  findFromAux d pat (d.length + 1 - startPos) startPos

/-- Big-endian value of a byte list (Python `int.from_bytes(_, "big")`). -/
def beBytesToNat (bs : List Nat) : Nat := bs.foldl (fun acc b => acc * 256 + b) 0

/-- Little-endian value of a byte list (Python `int.from_bytes(_, "little")`). -/
def leBytesToNat (bs : List Nat) : Nat := bs.foldr (fun b acc => acc * 256 + b) 0

/-- The structural box check of `find_mp4_header` at a candidate "ftyp"
position `fp`: at least 4 preceding bytes, and those 4 bytes parse as a
big-endian box size in [8, 1 MiB]. -/
def mp4BoxCheck (d : List Nat) (fp : Nat) : Bool :=
  if 4 ≤ fp ∧ ((d.drop (fp - 4)).take 4).length = 4 ∧
      8 ≤ beBytesToNat ((d.drop (fp - 4)).take 4) ∧
      beBytesToNat ((d.drop (fp - 4)).take 4) ≤ 1024 * 1024 then true else false

/-- Loop of `find_mp4_header`: repeatedly locate "ftyp", accept when the box
check passes, otherwise resume one byte further. -/
def findMp4Aux (d : List Nat) : Nat → Nat → Option Nat
  | 0, _ => none
  | fuel + 1, pos =>
    match findMagicBytes d MP4_HEADER_PATTERN pos with
    | none => none
    | some fp =>
      if mp4BoxCheck d fp then some (fp - 4)
      else if d.length ≤ fp + 1 then none
      else findMp4Aux d fuel (fp + 1)

/-- Embedding of `find_mp4_header`.  Each loop iteration strictly advances the
search position, so `d.length + 1` iterations always suffice. -/
def findMp4Header (d : List Nat) (startPos : Nat) : Option Nat :=
  findMp4Aux d (d.length + 1) startPos

/-- The structural check of `find_avi_header` at a candidate "RIFF" position:
room for RIFF + size + subtype, little-endian size in [12, 10 GiB], and the
"AVI " subtype right after the size field. -/
def aviCheck (d : List Nat) (rp : Nat) : Bool :=
  if rp + 12 ≤ d.length ∧ ((d.drop (rp + 4)).take 4).length = 4 ∧
      12 ≤ leBytesToNat ((d.drop (rp + 4)).take 4) ∧
      leBytesToNat ((d.drop (rp + 4)).take 4) ≤ 10 * 1024 * 1024 * 1024 ∧
      (d.drop (rp + 8)).take 4 = AVI_SUBTYPE then true else false

/-- Loop of `find_avi_header`. -/
def findAviAux (d : List Nat) : Nat → Nat → Option Nat
  | 0, _ => none
  | fuel + 1, pos =>
    match findMagicBytes d AVI_HEADER pos with
    | none => none
    | some rp =>
      if aviCheck d rp then some rp
      else if d.length ≤ rp + 1 then none
      else findAviAux d fuel (rp + 1)

/-- Embedding of `find_avi_header`. -/
def findAviHeader (d : List Nat) (startPos : Nat) : Option Nat :=
  findAviAux d (d.length + 1) startPos

/-- Python slice `xs[-n:]` for `n > 0`: the last `min n (length xs)` bytes. -/
def lastBytes (n : Nat) (xs : List Nat) : List Nat := xs.drop (xs.length - n)

/-- Image formats handled by `scan_device`. -/
inductive IFmt where
  | jpeg
  | png
deriving DecidableEq, Repr

/-- Video formats produced by the detectors of `scan_device_videos`. -/
inductive VFmt where
  | mp4
  | avi
  | mkv
  | flv
deriving DecidableEq, Repr

/-- Containment test `needle in hay` on byte strings. -/
def bytesContains (hay needle : List Nat) : Bool := (findMagicBytes hay needle 0).isSome

/-- Embedding of `validate_image`.  The Pillow decode (`Image.open` together
with `img.verify()`) is the oracle `pillow`; `none` models a raised exception,
which the `except` clause of the source maps to `False`. -/
def validateImage (pillow : List Nat → Option Unit) (data : List Nat) (fmt : IFmt) : Bool :=
  if data.isEmpty then false
  else
    match fmt with
    | IFmt.jpeg => if JPEG_FOOTER.isSuffixOf data then (pillow data).isSome else false
    | IFmt.png => if bytesContains (lastBytes 100 data) PNG_FOOTER then (pillow data).isSome else false

/-- Embedding of `validate_video` (purely structural, no external decode). -/
def validateVideo (data : List Nat) (fmt : VFmt) : Bool :=
  if data.length < 16 then false
  else
    match fmt with
    | VFmt.mp4 =>
      if data.take 4 = [0, 0, 0, 0] then false
      else if bytesContains (data.take 20) MP4_HEADER_PATTERN then 1024 ≤ data.length
      else false
    | VFmt.avi =>
      if data.take 4 = AVI_HEADER ∧ 12 ≤ data.length ∧ (data.drop 8).take 4 = AVI_SUBTYPE then
        1024 ≤ data.length
      else false
    | VFmt.mkv => if data.take 4 = MKV_HEADER then 1024 ≤ data.length else false
    | VFmt.flv => if data.take 4 = FLV_HEADER then 1024 ≤ data.length else false

/-- The value `max(len(JPEG_HEADER), len(PNG_HEADER))` of the image scan. -/
def maxImgHeaderLen : Nat := max JPEG_HEADER.length PNG_HEADER.length

/-- The value `max(len(MP4_HEADER_PATTERN), len(AVI_HEADER), len(MKV_HEADER),
len(FLV_HEADER))` of the video scan. -/
def maxVidHeaderLen : Nat :=
  max (max (max MP4_HEADER_PATTERN.length AVI_HEADER.length) MKV_HEADER.length) FLV_HEADER.length

/-- State of the image scan loop of `scan_device`: the local variables
`found_files`, `total_blocks`, `bytes_read_total`, `buffer_overflow`,
`pending_file` and `consecutive_empty_blocks`, plus the sequence of files
handed to `save_file` (the sink). -/
structure ImgState where
  found : Nat
  totalBlocks : Nat
  bytesRead : Nat
  overflow : List Nat
  pending : Option (List Nat × IFmt)
  consecEmpty : Nat
  outputs : List (List Nat × IFmt)
deriving DecidableEq, Repr

/-- Image scan state at loop entry. -/
def initImgState : ImgState :=
  { found := 0, totalBlocks := 0, bytesRead := 0, overflow := [], pending := none,
    consecEmpty := 0, outputs := [] }

/-- The footer pattern used when continuing a pending image candidate. -/
def ifmtFooter : IFmt → List Nat
  | IFmt.jpeg => JPEG_FOOTER
  | IFmt.png => PNG_FOOTER

/-- The header pattern of an image format. -/
def ifmtHeader : IFmt → List Nat
  | IFmt.jpeg => JPEG_HEADER
  | IFmt.png => PNG_HEADER

/-- The zero-byte-read branch of the image scan loop (`scan_device`
lines 702-719): bump the consecutive-empty counter, stop at the threshold of
100 (returned flag `false`), otherwise save the pending candidate when it
validates (without clearing the pending slot) and continue. -/
def imgEmptyStep (pillow : List Nat → Option Unit) (st : ImgState) : ImgState × Bool :=
  let c := st.consecEmpty + 1
  if 100 ≤ c then ({ st with consecEmpty := c }, false)
  else
    let st1 :=
      match st.pending with
      | some (fd, fmt) =>
        if validateImage pillow fd fmt then
          { st with found := st.found + 1, outputs := st.outputs ++ [(fd, fmt)] }
        else st
      | none => st
    ({ st1 with consecEmpty := c, totalBlocks := st1.totalBlocks + 1 }, true)

/-- Result of the new-header search loop of the image scan
(`scan_device` lines 770-826). -/
inductive ImgInnerRes where
  | done (found : Nat) (outputs : List (List Nat × IFmt))
  | toPending (found : Nat) (outputs : List (List Nat × IFmt))
      (pending : List Nat × IFmt) (overflow : List Nat)
deriving DecidableEq, Repr

/-- The tie-break of the image scan (lines 779-795): determine which of the
two header hits comes first; on an exact tie the Python chain of
comparisons picks PNG (`jpeg_start < png_start` fails). -/
def imgChooseHeader (jpegStart pngStart : Option Nat) : Option (Nat × IFmt) :=
  match jpegStart, pngStart with
  | some j, some p => if j < p then some (j, IFmt.jpeg) else some (p, IFmt.png)
  | some j, none => some (j, IFmt.jpeg)
  | none, some p => some (p, IFmt.png)
  | none, none => none

/-- The `while current_pos < len(search_data)` loop of the image scan:
find the earliest JPEG or PNG header, carve to the matching footer when it is
in view (validating and saving), or park the headed tail as the pending file.
`ovf0` is the value of `buffer_overflow` on entry (the loop leaves it
untouched unless a pending file is created).  The position strictly grows
each iteration, so fuel `sd.length + 1` never runs out. -/
def imgInner (pillow : List Nat → Option Unit) (sd : List Nat) (ovf0 : List Nat) :
    Nat → Nat → Nat → List (List Nat × IFmt) → ImgInnerRes
  | 0, _, found, outputs => ImgInnerRes.done found outputs
  | fuel + 1, pos, found, outputs =>
    if pos < sd.length then
      match imgChooseHeader (findMagicBytes sd JPEG_HEADER pos) (findMagicBytes sd PNG_HEADER pos) with
      | none => ImgInnerRes.done found outputs
      | some (fileStart, fmt) =>
        match findMagicBytes sd (ifmtFooter fmt) (fileStart + (ifmtHeader fmt).length) with
        | some fp =>
          let fileEnd := fp + (ifmtFooter fmt).length
          let fileData := (sd.take fileEnd).drop fileStart
          if validateImage pillow fileData fmt then
            imgInner pillow sd ovf0 fuel fileEnd (found + 1) (outputs ++ [(fileData, fmt)])
          else
            imgInner pillow sd ovf0 fuel fileEnd found outputs
        | none =>
          ImgInnerRes.toPending found outputs (sd.drop fileStart, fmt)
            (if maxImgHeaderLen < sd.length then lastBytes maxImgHeaderLen sd else ovf0)
    else ImgInnerRes.done found outputs

/-- The part of the image scan body after the pending-file continuation has
resolved: run the new-header search over `sd`, then the trailing
carry-window update of lines 828-832.  `st.overflow` is `b""` here (reset at
line 740). -/
def imgAfterPending (pillow : List Nat → Option Unit) (st : ImgState) (sd : List Nat) : ImgState :=
  match imgInner pillow sd st.overflow (sd.length + 1) 0 st.found st.outputs with
  | ImgInnerRes.done found outputs =>
    let ovf :=
      if 0 < sd.length ∧ maxImgHeaderLen < sd.length then lastBytes maxImgHeaderLen sd
      else st.overflow
    { st with found := found, outputs := outputs, pending := none, overflow := ovf }
  | ImgInnerRes.toPending found outputs pend ovf =>
    { st with found := found, outputs := outputs, pending := some pend, overflow := ovf }

/-- The nonempty-block body of the image scan loop (`scan_device`
lines 721-832): reset the empty counter, merge the carry window with the
block, continue a pending candidate (completing it at its footer or
accumulating the whole window), then search for new headers. -/
def imgProcessBlock (pillow : List Nat → Option Unit) (st : ImgState) (b : List Nat) : ImgState :=
  let sd := st.overflow ++ b
  let br := st.bytesRead + b.length
  let tb := st.totalBlocks + 1
  let st0 := { st with consecEmpty := 0, bytesRead := br, totalBlocks := tb, overflow := [] }
  match st.pending with
  | some (fd, fmt) =>
    let footer := ifmtFooter fmt
    match findMagicBytes sd footer 0 with
    | some fp =>
      let fileEnd := fp + footer.length
      let complete := fd ++ sd.take fileEnd
      let st1 :=
        if validateImage pillow complete fmt then
          { st0 with found := st0.found + 1,
                     outputs := st0.outputs ++ [(complete, fmt)],
                     pending := none }
        else { st0 with pending := none }
      imgAfterPending pillow st1 (sd.drop fileEnd)
    | none =>
      let ovf := if maxImgHeaderLen < sd.length then lastBytes maxImgHeaderLen sd else sd
      { st0 with pending := some (fd ++ sd, fmt), overflow := ovf }
  | none => imgAfterPending pillow st0 sd

/-- The image scan over the block list; the returned flag records whether the
loop broke at the consecutive-empty threshold before exhausting the list. -/
def scanImgList (pillow : List Nat → Option Unit) :
    List (List Nat) → ImgState → ImgState × Bool
  | [], st => (st, false)
  | b :: rest, st =>
    if b.isEmpty then
      let pr := imgEmptyStep pillow st
      if pr.2 then scanImgList pillow rest pr.1 else (pr.1, true)
    else scanImgList pillow rest (imgProcessBlock pillow st b)

/-- After the stream is exhausted the device keeps returning zero-byte reads;
the loop then runs the empty branch until the threshold stops it.  From
counter `c` exactly `100 - c` further iterations happen, so that much fuel is
exact. -/
def drainImgAux (pillow : List Nat → Option Unit) : Nat → ImgState → ImgState
  | 0, st => st
  | fuel + 1, st =>
    let pr := imgEmptyStep pillow st
    if pr.2 then drainImgAux pillow fuel pr.1 else pr.1

/-- Drain phase of the image scan. -/
def drainImg (pillow : List Nat → Option Unit) (st : ImgState) : ImgState :=
  drainImgAux pillow (100 - st.consecEmpty) st

/-- Embedding of the main read loop of `scan_device` (with no cancellation
flag): process the listed reads, then drain the trailing zero-byte reads. -/
def scanDevice (pillow : List Nat → Option Unit) (blocks : List (List Nat)) : ImgState :=
  let pr := scanImgList pillow blocks initImgState
  if pr.2 then pr.1 else drainImg pillow pr.1

/-- State of the video scan loop of `scan_device_videos`, mirroring
`ImgState` with `pending_video` and the `save_video_file` sink. -/
structure VidState where
  found : Nat
  totalBlocks : Nat
  bytesRead : Nat
  overflow : List Nat
  pending : Option (List Nat × VFmt)
  consecEmpty : Nat
  outputs : List (List Nat × VFmt)
deriving DecidableEq, Repr

/-- Video scan state at loop entry. -/
def initVidState : VidState :=
  { found := 0, totalBlocks := 0, bytesRead := 0, overflow := [], pending := none,
    consecEmpty := 0, outputs := [] }

/-- Search for the next header of the same format while a video candidate is
pending (`scan_device_videos` lines 1149-1157). -/
def vidNextHeader (sd : List Nat) : VFmt → Option Nat
  | VFmt.mp4 => findMp4Header sd 0
  | VFmt.avi => findAviHeader sd 0
  | VFmt.mkv => findMagicBytes sd MKV_HEADER 0
  | VFmt.flv => findMagicBytes sd FLV_HEADER 0

/-- The zero-byte-read branch of the video scan loop (`scan_device_videos`
lines 1104-1121): like the image one, but a pending video is saved when it is
at least 1024 bytes and passes `validate_video` (again without clearing the
pending slot). -/
def vidEmptyStep (st : VidState) : VidState × Bool :=
  let c := st.consecEmpty + 1
  if 100 ≤ c then ({ st with consecEmpty := c }, false)
  else
    let st1 :=
      match st.pending with
      | some (vd, fmt) =>
        if 1024 ≤ vd.length ∧ validateVideo vd fmt then
          { st with found := st.found + 1, outputs := st.outputs ++ [(vd, fmt)] }
        else st
      | none => st
    ({ st1 with consecEmpty := c, totalBlocks := st1.totalBlocks + 1 }, true)

/-- Pick the earliest header across the four video detectors
(`scan_device_videos` lines 1197-1217).  The Python code collects the hits in
the order mp4, avi, mkv, flv and stable-sorts them by position, so a tie is
broken by that listing order; the fold below keeps the earlier entry on
ties. -/
def vidPickEarliest (sd : List Nat) (pos : Nat) : Option (Nat × VFmt) :=
  let cands : List (Option Nat × VFmt) :=
    [(findMp4Header sd pos, VFmt.mp4), (findAviHeader sd pos, VFmt.avi),
     (findMagicBytes sd MKV_HEADER pos, VFmt.mkv), (findMagicBytes sd FLV_HEADER pos, VFmt.flv)]
  cands.foldl
    (fun acc c =>
      match c.1, acc with
      | none, _ => acc
      | some p, none => some (p, c.2)
      | some p, some (q, g) => if p < q then some (p, c.2) else some (q, g))
    none

/-- The new-header search of the video scan (lines 1189-1228) together with
the trailing carry-window update (lines 1231-1234).  The inner `while` always
breaks after its first iteration; its leading cancellation poll is the
`innerCancel` flag (constantly `false` without a cancellation flag), and when
it fires the search is skipped but the carry update still runs.  On entry
`st.pending` is `none` and `st.overflow` is `b""` (reset at line 1142). -/
def vidInnerPhase (innerCancel : Bool) (st : VidState) (sd : List Nat) : VidState :=
  if sd.isEmpty then st
  else
    let ovf := if maxVidHeaderLen < sd.length then lastBytes maxVidHeaderLen sd else st.overflow
    if innerCancel then { st with overflow := ovf }
    else
      match vidPickEarliest sd 0 with
      | some (fs, fmt) => { st with pending := some (sd.drop fs, fmt), overflow := ovf }
      | none => { st with overflow := ovf }

/-- The branch of the pending-video continuation taken when no strictly
positive next-header position was found (lines 1169-1187): flush at the 2 GiB
cap and fall through to the header search, or accumulate the window and
continue with the next block.  The returned flag records whether the inner
search loop ran (and hence polled cancellation). -/
def vidPendingFallback (innerCancel : Bool) (st0 : VidState) (sd vd : List Nat) (fmt : VFmt) :
    VidState × Bool :=
  if MAX_VIDEO_SIZE ≤ vd.length + sd.length then
    let st1 :=
      if 1024 ≤ vd.length ∧ validateVideo vd fmt then
        { st0 with found := st0.found + 1,
                   outputs := st0.outputs ++ [(vd, fmt)],
                   pending := none }
      else { st0 with pending := none }
    (vidInnerPhase innerCancel st1 sd, !sd.isEmpty)
  else
    let ovf := if maxVidHeaderLen < sd.length then lastBytes maxVidHeaderLen sd else sd
    ({ st0 with pending := some (vd ++ sd, fmt), overflow := ovf }, false)

/-- The nonempty-block body of the video scan loop (`scan_device_videos`
lines 1123-1234).  The returned flag records whether the inner search loop
ran its cancellation poll. -/
def vidProcessBlockCore (innerCancel : Bool) (st : VidState) (b : List Nat) :
    VidState × Bool :=
  let sd := st.overflow ++ b
  let br := st.bytesRead + b.length
  let tb := st.totalBlocks + 1
  let st0 := { st with consecEmpty := 0, bytesRead := br, totalBlocks := tb, overflow := [] }
  match st.pending with
  | some (vd, fmt) =>
    match vidNextHeader sd fmt with
    | some h =>
      if 0 < h then
        let complete := vd ++ sd.take h
        let st1 :=
          if 1024 ≤ complete.length ∧ validateVideo complete fmt then
            { st0 with found := st0.found + 1,
                       outputs := st0.outputs ++ [(complete, fmt)],
                       pending := none }
          else { st0 with pending := none }
        let sd1 := sd.drop h
        (vidInnerPhase innerCancel st1 sd1, !sd1.isEmpty)
      else vidPendingFallback innerCancel st0 sd vd fmt
    | none => vidPendingFallback innerCancel st0 sd vd fmt
  | none => (vidInnerPhase innerCancel st0 sd, !sd.isEmpty)

/-- The nonempty-block body without cancellation. -/
def vidProcessBlock (st : VidState) (b : List Nat) : VidState :=
  (vidProcessBlockCore false st b).1

/-- The video scan over the block list; the flag records a break at the
consecutive-empty threshold. -/
def scanVidList : List (List Nat) → VidState → VidState × Bool
  | [], st => (st, false)
  | b :: rest, st =>
    if b.isEmpty then
      let pr := vidEmptyStep st
      if pr.2 then scanVidList rest pr.1 else (pr.1, true)
    else scanVidList rest (vidProcessBlock st b)

/-- Drain loop of the video scan (trailing zero-byte reads at end of
stream). -/
def drainVidAux : Nat → VidState → VidState
  | 0, st => st
  | fuel + 1, st =>
    let pr := vidEmptyStep st
    if pr.2 then drainVidAux fuel pr.1 else pr.1

/-- Drain phase of the video scan. -/
def drainVid (st : VidState) : VidState := drainVidAux (100 - st.consecEmpty) st

/-- Embedding of the main read loop of `scan_device_videos` (with no
cancellation flag). -/
def scanDeviceVideos (blocks : List (List Nat)) : VidState :=
  let pr := scanVidList blocks initVidState
  if pr.2 then pr.1 else drainVid pr.1

/-- Observable events of a scan run: the two cancellation polls of the outer
loop (`pollTrue` / `pollFalse`), the extra poll inside the inner video search
loop (`pollInnerTrue` / `pollInnerFalse`), a device read and a file written by
the sink. -/
inductive ScanEv where
  | pollTrue
  | pollFalse
  | pollInnerTrue
  | pollInnerFalse
  | readBlk
  | save (data : List Nat)
deriving DecidableEq, Repr

/-- The save events added by a step that took the state from `st.outputs` to
an extension of it. -/
def newSaves {α : Type} (old new : List (List Nat × α)) : List ScanEv :=
  (new.drop old.length).map (fun o => ScanEv.save o.1)

/-- Event trace of the image scan loop run with cancellation flag `cancel`
(a shared boolean sampled at successive polls; poll number `pc` reads
`cancel pc`).  Each iteration polls at the top, reads a block, polls again,
and only then runs the body; a `true` poll breaks the loop at once.  When the
block list is exhausted the device keeps returning zero-byte reads.  The
trace is a safety view: any `fuel` yields a prefix of the run. -/
def imgTraceAux (pillow : List Nat → Option Unit) (cancel : Nat → Bool) :
    Nat → List (List Nat) → ImgState → Nat → List ScanEv
  | 0, _, _, _ => []
  | fuel + 1, blocks, st, pc =>
    if cancel pc then [ScanEv.pollTrue]
    else
      let b := blocks.headD []
      let rest := blocks.tail
      if cancel (pc + 1) then [ScanEv.pollFalse, ScanEv.readBlk, ScanEv.pollTrue]
      else if b.isEmpty then
        let pr := imgEmptyStep pillow st
        if pr.2 then
          ScanEv.pollFalse :: ScanEv.readBlk :: ScanEv.pollFalse ::
            (newSaves st.outputs pr.1.outputs ++ imgTraceAux pillow cancel fuel rest pr.1 (pc + 2))
        else [ScanEv.pollFalse, ScanEv.readBlk, ScanEv.pollFalse]
      else
        let st1 := imgProcessBlock pillow st b
        ScanEv.pollFalse :: ScanEv.readBlk :: ScanEv.pollFalse ::
          (newSaves st.outputs st1.outputs ++ imgTraceAux pillow cancel fuel rest st1 (pc + 2))

/-- Event trace of the video scan loop run with cancellation flag `cancel`.
Besides the two outer polls, the inner header-search loop polls once more
before searching (`scan_device_videos` lines 1192-1195); a `true` inner poll
only breaks the inner loop, and the outer loop then exits at its next top
poll. -/
def vidTraceAux (cancel : Nat → Bool) :
    Nat → List (List Nat) → VidState → Nat → List ScanEv
  | 0, _, _, _ => []
  | fuel + 1, blocks, st, pc =>
    if cancel pc then [ScanEv.pollTrue]
    else
      let b := blocks.headD []
      let rest := blocks.tail
      if cancel (pc + 1) then [ScanEv.pollFalse, ScanEv.readBlk, ScanEv.pollTrue]
      else if b.isEmpty then
        let pr := vidEmptyStep st
        if pr.2 then
          ScanEv.pollFalse :: ScanEv.readBlk :: ScanEv.pollFalse ::
            (newSaves st.outputs pr.1.outputs ++ vidTraceAux cancel fuel rest pr.1 (pc + 2))
        else [ScanEv.pollFalse, ScanEv.readBlk, ScanEv.pollFalse]
      else
        let cIn := cancel (pc + 2)
        let pr := vidProcessBlockCore cIn st b
        let innerEv : List ScanEv :=
          if pr.2 then [if cIn then ScanEv.pollInnerTrue else ScanEv.pollInnerFalse] else []
        let pcNext := pc + 2 + (if pr.2 then 1 else 0)
        ScanEv.pollFalse :: ScanEv.readBlk :: ScanEv.pollFalse ::
          (newSaves st.outputs pr.1.outputs ++ innerEv ++ vidTraceAux cancel fuel rest pr.1 pcNext)

/-- Test for a save event. -/
def isSaveEv : ScanEv → Bool
  | ScanEv.save _ => true
  | _ => false

/-- No save event occurs in the trace. -/
def saveFree (l : List ScanEv) : Bool := l.all (fun e => !isSaveEv e)

/-- Cancellation safety of a trace: when an outer-loop poll observes the flag
the loop exits at once (nothing at all follows the `pollTrue` event), and when
the inner-search poll observes the flag no file is written afterwards. -/
def cancelSafe : List ScanEv → Prop
  | [] => True
  | ScanEv.pollTrue :: rest => rest = []
  | ScanEv.pollInnerTrue :: rest => saveFree rest = true
  | _ :: rest => cancelSafe rest

/-- Destination of one log message emitted through the `log` helper closure
of `scan_device` (lines 485-489), `scan_device_videos` (lines 916-920) and
`save_file` (lines 403-407): with a callback the message goes to the
callback, otherwise the fallback is `print(message)` on standard output. -/
inductive LogDest where
  | callback (msg : String)
  | console (msg : String)
deriving DecidableEq, Repr

/-- Embedding of the `log` helper: `log_callback(message)` when a callback
was supplied, else `print(message)`. -/
def logEmit {α : Type} (logCallback : Option α) (msg : String) : LogDest :=
  match logCallback with
  | some _ => LogDest.callback msg
  | none => LogDest.console msg

/-- Python runtime errors relevant to the model. -/
inductive PyError where
  | nameError
deriving DecidableEq, Repr

/-- The MTP-detection condition of `scan_device` (lines 503-514): Windows,
the resolved raw path is not a `\\.\` device path, the original path is a
directory, and either it has no drive letter or it carries one of the MTP
markers ("Este PC", "This PC", "::{").  The platform predicates are the
excluded OS collaborators and enter as booleans. -/
def computeIsMtpDevice (isWindows rawIsDevicePath pathIsDir hasDriveLetter hasMtpMarker : Bool) :
    Bool :=
  isWindows && (!rawIsDevicePath && pathIsDir) && (!hasDriveLetter || hasMtpMarker)

/-- The device-size phase of `scan_device` (lines 527-536): the assignment
`device_size = get_device_size(raw_device_path)` is guarded by
`if not is_mtp_device:`, but the following `if device_size:` sits outside
that guard.  A Python local is only bound when its assignment executed;
reading an unbound local raises `NameError`.  The binding is modelled by an
`Option`: `none` means the name was never bound, and reading it then yields
`Except.error PyError.nameError`.  `sizeQuery` is the result the
`get_device_size` collaborator would return. -/
def scanDeviceSizePhase (isMtp : Bool) (sizeQuery : Option Nat) : Except PyError (Option Nat) :=
  let deviceSizeBinding : Option (Option Nat) := if !isMtp then some sizeQuery else none
  match deviceSizeBinding with
  | some v => Except.ok v
  | none => Except.error PyError.nameError

/-- The prelude of `scan_device` from MTP detection up to the `try:` block at
line 538 (the first point that could dispatch to the MTP directory scan).
The size phase runs before the `try:`, so an error here propagates out of
`scan_device` unhandled; on success the returned boolean decides between the
MTP directory scan and the raw block scan. -/
def scanDevicePrelude (isWindows rawIsDevicePath pathIsDir hasDriveLetter hasMtpMarker : Bool)
    (sizeQuery : Option Nat) : Except PyError Bool :=
  let isMtp := computeIsMtpDevice isWindows rawIsDevicePath pathIsDir hasDriveLetter hasMtpMarker
  match scanDeviceSizePhase isMtp sizeQuery with
  | Except.ok _ => Except.ok isMtp
  | Except.error e => Except.error e

/-! ### Characterization of the byte search -/

lemma occursAt_add_length_le {d pat : List Nat} {i : Nat} (hpat : pat ≠ [])
    (h : occursAt d pat i) : i + pat.length ≤ d.length := by
  have hp : pat <+: d.drop i := List.isPrefixOf_iff_prefix.mp h
  have hl : pat.length ≤ (d.drop i).length := hp.length_le
  have hpos : 0 < pat.length := List.length_pos.mpr hpat
  simp only [List.length_drop] at hl
  omega

lemma findFromAux_eq_some_iff {d pat : List Nat} :
    ∀ fuel i p, findFromAux d pat fuel i = some p ↔
      (i ≤ p ∧ p < i + fuel ∧ occursAt d pat p ∧
        ∀ q, i ≤ q → q < p → ¬ occursAt d pat q) := by
  intro fuel
  induction fuel with
  | zero =>
    intro i p
    simp only [findFromAux]
    constructor
    · intro h; exact absurd h (by simp)
    · intro h; omega
  | succ n ih =>
    intro i p
    simp only [findFromAux]
    by_cases h : pat.isPrefixOf (d.drop i) = true
    · rw [if_pos h]
      constructor
      · intro heq
        have hip : i = p := Option.some.inj heq
        subst hip
        exact ⟨Nat.le_refl i, by omega, h, fun q h1 h2 => absurd (Nat.lt_of_le_of_lt h1 h2) (Nat.lt_irrefl i)⟩
      · rintro ⟨h1, _, h3, h4⟩
        rcases Nat.lt_or_ge i p with hlt | hge
        · exact absurd h (h4 i (Nat.le_refl i) hlt)
        · have : i = p := Nat.le_antisymm h1 hge
          rw [this]
    · rw [if_neg h, ih (i + 1) p]
      constructor
      · rintro ⟨h1, h2, h3, h4⟩
        refine ⟨by omega, by omega, h3, fun q hq1 hq2 => ?_⟩
        rcases Nat.eq_or_lt_of_le hq1 with heq | hlt
        · rw [← heq]; exact h
        · exact h4 q hlt hq2
      · rintro ⟨h1, h2, h3, h4⟩
        have hip : i ≠ p := by
          intro heq; rw [← heq] at h3; exact h h3
        exact ⟨by omega, by omega, h3, fun q hq1 hq2 => h4 q (by omega) hq2⟩

lemma findFromAux_eq_none_iff {d pat : List Nat} :
    ∀ fuel i, findFromAux d pat fuel i = none ↔
      ∀ q, i ≤ q → q < i + fuel → ¬ occursAt d pat q := by
  intro fuel
  induction fuel with
  | zero => intro i; simp only [findFromAux]; constructor <;> intro <;> first | omega | trivial
  | succ n ih =>
    intro i
    simp only [findFromAux]
    by_cases h : pat.isPrefixOf (d.drop i) = true
    · rw [if_pos h]
      constructor
      · intro heq; exact absurd heq (by simp)
      · intro hall; exact absurd h (hall i (Nat.le_refl i) (by omega))
    · rw [if_neg h, ih (i + 1)]
      constructor
      · intro hall q hq1 hq2
        rcases Nat.eq_or_lt_of_le hq1 with heq | hlt
        · rw [← heq]; exact h
        · exact hall q hlt (by omega)
      · intro hall q hq1 hq2
        exact hall q (by omega) (by omega)

lemma findMagicBytes_eq_some_iff {d pat : List Nat} {s p : Nat} (hpat : pat ≠ []) :
    findMagicBytes d pat s = some p ↔
      (s ≤ p ∧ occursAt d pat p ∧ ∀ q, s ≤ q → q < p → ¬ occursAt d pat q) := by
  unfold findMagicBytes
  rw [findFromAux_eq_some_iff]
  constructor
  · rintro ⟨h1, _, h3, h4⟩; exact ⟨h1, h3, h4⟩
  · rintro ⟨h1, h3, h4⟩
    have hb := occursAt_add_length_le hpat h3
    have hpos : 0 < pat.length := List.length_pos.mpr hpat
    exact ⟨h1, by omega, h3, h4⟩

lemma findMagicBytes_eq_none_iff {d pat : List Nat} {s : Nat} (hpat : pat ≠ []) :
    findMagicBytes d pat s = none ↔ ∀ q, s ≤ q → ¬ occursAt d pat q := by
  unfold findMagicBytes
  rw [findFromAux_eq_none_iff]
  constructor
  · intro hall q hq1 hocc
    have hb := occursAt_add_length_le hpat hocc
    have hpos : 0 < pat.length := List.length_pos.mpr hpat
    exact hall q hq1 (by omega) hocc
  · intro hall q hq1 _
    exact hall q hq1

lemma findMagicBytes_self {d pat : List Nat} {s : Nat} (hpat : pat ≠ [])
    (h : occursAt d pat s) : findMagicBytes d pat s = some s :=
  (findMagicBytes_eq_some_iff hpat).mpr
    ⟨Nat.le_refl s, h, fun _ h1 h2 => absurd (Nat.lt_of_le_of_lt h1 h2) (Nat.lt_irrefl s)⟩

lemma findMagicBytes_ge {d pat : List Nat} {s p : Nat} (hpat : pat ≠ [])
    (h : findMagicBytes d pat s = some p) : s ≤ p :=
  ((findMagicBytes_eq_some_iff hpat).mp h).1

lemma findMagicBytes_occurs {d pat : List Nat} {s p : Nat} (hpat : pat ≠ [])
    (h : findMagicBytes d pat s = some p) : occursAt d pat p :=
  ((findMagicBytes_eq_some_iff hpat).mp h).2.1

/-! ### The MP4 header detector (claim C5) -/

lemma boolOfProp_eq_true {P : Prop} [Decidable P] : (if P then true else false) = true ↔ P := by
  by_cases h : P <;> simp [h]

/-- The acceptance condition of claim C5, written with the words of the
specification: `q` is an occurrence of the literal "ftyp" at or after the
start position with at least 4 preceding bytes, and those 4 bytes read as a
big-endian integer in [8, 1 MiB]. -/
def mp4SpecValid (d : List Nat) (s q : Nat) : Prop :=
  s ≤ q ∧ 4 ≤ q ∧ occursAt d MP4_HEADER_PATTERN q ∧
    8 ≤ beBytesToNat ((d.drop (q - 4)).take 4) ∧
    beBytesToNat ((d.drop (q - 4)).take 4) ≤ 1024 * 1024

lemma mp4BoxCheck_iff {d : List Nat} {q : Nat} (hocc : occursAt d MP4_HEADER_PATTERN q) :
    mp4BoxCheck d q = true ↔
      (4 ≤ q ∧ 8 ≤ beBytesToNat ((d.drop (q - 4)).take 4) ∧
        beBytesToNat ((d.drop (q - 4)).take 4) ≤ 1024 * 1024) := by
  have hlen := occursAt_add_length_le (by decide) hocc
  have hl4 : MP4_HEADER_PATTERN.length = 4 := rfl
  rw [hl4] at hlen
  unfold mp4BoxCheck
  rw [boolOfProp_eq_true]
  constructor
  · rintro ⟨h1, _, h3, h4⟩; exact ⟨h1, h3, h4⟩
  · rintro ⟨h1, h3, h4⟩
    refine ⟨h1, ?_, h3, h4⟩
    simp only [List.length_take, List.length_drop]
    omega

lemma mp4SpecValid_iff_check {d : List Nat} {s q : Nat} :
    mp4SpecValid d s q ↔
      (s ≤ q ∧ occursAt d MP4_HEADER_PATTERN q ∧ mp4BoxCheck d q = true) := by
  unfold mp4SpecValid
  constructor
  · rintro ⟨h1, h2, h3, h4, h5⟩
    exact ⟨h1, h3, (mp4BoxCheck_iff h3).mpr ⟨h2, h4, h5⟩⟩
  · rintro ⟨h1, h3, hc⟩
    obtain ⟨h2, h4, h5⟩ := (mp4BoxCheck_iff h3).mp hc
    exact ⟨h1, h2, h3, h4, h5⟩

lemma mp4SpecValid_length_le {d : List Nat} {s q : Nat} (hv : mp4SpecValid d s q) :
    q + 4 ≤ d.length := by
  have h := occursAt_add_length_le (by decide) hv.2.2.1
  have hl4 : MP4_HEADER_PATTERN.length = 4 := rfl
  omega

lemma findMp4Aux_spec {d : List Nat} {s : Nat} :
    ∀ fuel pos, d.length < pos + fuel → s ≤ pos →
      (∀ q, s ≤ q → q < pos → ¬ mp4SpecValid d s q) →
      ((∀ p, findMp4Aux d fuel pos = some p ↔
          (mp4SpecValid d s (p + 4) ∧ ∀ q, q < p + 4 → ¬ mp4SpecValid d s q)) ∧
        (findMp4Aux d fuel pos = none ↔ ∀ q, ¬ mp4SpecValid d s q)) := by
  intro fuel
  induction fuel with
  | zero =>
    intro pos hlen hs hinv
    have hall : ∀ q, ¬ mp4SpecValid d s q := by
      intro q hv
      rcases Nat.lt_or_ge q pos with h1 | h1
      · exact hinv q hv.1 h1 hv
      · have := mp4SpecValid_length_le hv
        omega
    constructor
    · intro p
      simp only [findMp4Aux]
      constructor
      · intro h; exact absurd h (by simp)
      · rintro ⟨hv, _⟩; exact absurd hv (hall _)
    · simp only [findMp4Aux]
      exact ⟨fun _ => hall, fun _ => by trivial⟩
  | succ n ih =>
    intro pos hlen hs hinv
    cases hfm : findMagicBytes d MP4_HEADER_PATTERN pos with
    | none =>
      simp only [findMp4Aux, hfm]
      have hnone := (findMagicBytes_eq_none_iff (by decide)).mp hfm
      have hall : ∀ q, ¬ mp4SpecValid d s q := by
        intro q hv
        rcases Nat.lt_or_ge q pos with h1 | h1
        · exact hinv q hv.1 h1 hv
        · exact hnone q h1 hv.2.2.1
      constructor
      · intro p
        constructor
        · intro h; exact absurd h (by simp)
        · rintro ⟨hv, _⟩; exact absurd hv (hall _)
      · exact ⟨fun _ => hall, fun _ => by trivial⟩
    | some fp =>
      simp only [findMp4Aux, hfm]
      have hocc := findMagicBytes_occurs (by decide) hfm
      have hge : pos ≤ fp := findMagicBytes_ge (by decide) hfm
      have hfmin := ((findMagicBytes_eq_some_iff (by decide)).mp hfm).2.2
      by_cases hchk : mp4BoxCheck d fp = true
      · rw [if_pos hchk]
        have hvfp : mp4SpecValid d s fp :=
          mp4SpecValid_iff_check.mpr ⟨Nat.le_trans hs hge, hocc, hchk⟩
        have hminv : ∀ q, q < fp → ¬ mp4SpecValid d s q := by
          intro q hq hv
          rcases Nat.lt_or_ge q pos with h1 | h1
          · exact hinv q hv.1 h1 hv
          · exact hfmin q h1 hq (mp4SpecValid_iff_check.mp hv).2.1
        have h4fp : 4 ≤ fp := ((mp4BoxCheck_iff hocc).mp hchk).1
        constructor
        · intro p
          constructor
          · intro heq
            have hp : fp - 4 = p := Option.some.inj heq
            have hfpp : p + 4 = fp := by omega
            rw [hfpp]
            exact ⟨hvfp, hminv⟩
          · rintro ⟨hv, hub⟩
            have h1 : ¬ (p + 4 < fp) := fun hlt => hminv _ hlt hv
            have h2 : ¬ (fp < p + 4) := fun hlt => hub fp hlt hvfp
            have : fp - 4 = p := by omega
            rw [this]
        · constructor
          · intro heq; exact absurd heq (by simp)
          · intro hall; exact absurd hvfp (hall fp)
      · rw [if_neg hchk]
        have hnotfp : ¬ mp4SpecValid d s fp := fun hv =>
          hchk (mp4SpecValid_iff_check.mp hv).2.2
        have hinv2 : ∀ q, s ≤ q → q < fp + 1 → ¬ mp4SpecValid d s q := by
          intro q hq1 hq2 hv
          rcases Nat.lt_or_ge q pos with h1 | h1
          · exact hinv q hq1 h1 hv
          · rcases Nat.lt_or_ge q fp with h2 | h2
            · exact hfmin q h1 h2 hv.2.2.1
            · have : q = fp := by omega
              rw [this] at hv
              exact hnotfp hv
        by_cases hend : d.length ≤ fp + 1
        · rw [if_pos hend]
          have hall : ∀ q, ¬ mp4SpecValid d s q := by
            intro q hv
            rcases Nat.lt_or_ge q (fp + 1) with h1 | h1
            · exact hinv2 q hv.1 h1 hv
            · have := mp4SpecValid_length_le hv
              omega
          constructor
          · intro p
            constructor
            · intro h; exact absurd h (by simp)
            · rintro ⟨hv, _⟩; exact absurd hv (hall _)
          · exact ⟨fun _ => hall, fun _ => by trivial⟩
        · rw [if_neg hend]
          exact ih (fp + 1) (by omega) (by omega) hinv2

/-- C5: `find_mp4_header` returns `some p` exactly when `p + 4` is the
earliest occurrence of the 4-byte literal "ftyp" at or after the start
position that has at least 4 preceding bytes whose big-endian value lies in
[8, 1 MiB]; the returned position is that of the 4 size bytes, and the result
is `none` exactly when no such occurrence exists. -/
theorem fr_C5_find_mp4_header (d : List Nat) (s : Nat) :
    (∀ p, findMp4Header d s = some p ↔
      (mp4SpecValid d s (p + 4) ∧ ∀ q, q < p + 4 → ¬ mp4SpecValid d s q)) ∧
    (findMp4Header d s = none ↔ ∀ q, ¬ mp4SpecValid d s q) := by
  unfold findMp4Header
  exact findMp4Aux_spec (d.length + 1) s (by omega) (Nat.le_refl s)
    (fun q h1 h2 _ => absurd (Nat.lt_of_le_of_lt h1 h2) (Nat.lt_irrefl s))

/-! ### Logging fallback (claim C8) -/

/-- A sample log message. -/
def sampleLogMsg : String := "Iniciando varredura"

/-- C8 counterexample: with no log callback the `log` helper sends the
message to the console (`print`), so the fallback is not a no-op. -/
theorem fr_C8_counterexample :
    logEmit (none : Option Unit) sampleLogMsg = LogDest.console sampleLogMsg := rfl

/-- C8 (amended): when no log observer is supplied the fallback prints the
message to standard output; a supplied callback receives it instead. -/
theorem fr_C8_log_fallback_prints (α : Type) (cb : Option α) (msg : String) :
    logEmit cb msg =
      match cb with
      | some _ => LogDest.callback msg
      | none => LogDest.console msg := by
  cases cb <;> rfl

/-! ### The MTP branch of scan_device (claim C9) -/

/-- C9: whenever the MTP-device branch of `scan_device` is taken, the read of
`device_size` at line 530 finds the name unbound (its assignment at line 529
is guarded by `if not is_mtp_device:`), so the function raises `NameError`
before the `try:` block and never reaches the advertised MTP directory scan
or returns a `(found, blocks)` pair. -/
theorem fr_C9_mtp_name_error (w r dir dl mk : Bool) (sq : Option Nat)
    (h : computeIsMtpDevice w r dir dl mk = true) :
    scanDevicePrelude w r dir dl mk sq = Except.error PyError.nameError := by
  simp [scanDevicePrelude, scanDeviceSizePhase, h]

/-- Witness for C9: Windows, a directory path that is not a raw device path
and has no drive letter. -/
theorem fr_C9_mtp_name_error_witness :
    scanDevicePrelude true false true false false none = Except.error PyError.nameError :=
  fr_C9_mtp_name_error true false true false false none (by decide)

/-! ### Concrete streams for claims C1 and C2 -/

/-- A stand-in decode collaborator that accepts every buffer. -/
def pillowAccept : List Nat → Option Unit := fun _ => some ()

/-- A 14-byte well-formed JPEG: header, 10 innocuous body bytes, footer; the
footer bytes occur nowhere else. -/
def jpegSample : List Nat := [0xFF, 0xD8, 1, 2, 3, 4, 5, 6, 7, 8, 9, 10, 0xFF, 0xD9]

set_option maxRecDepth 4000 in
/-- C1 (code bug): when the single JPEG of the stream straddles a block
boundary (here split after 10 bytes), the pending-file continuation prepends
the window, whose first `maxImgHeaderLen` bytes duplicate the carry-over
bytes already stored in the pending buffer; the one recovered artifact is a
22-byte buffer with bytes 2-9 of the JPEG repeated, not the original JPEG.
The same stream read as a single block is recovered byte-identically. -/
theorem fr_C1_straddle_corrupts :
    (scanDevice pillowAccept [jpegSample.take 10, jpegSample.drop 10]).found = 1 ∧
    (scanDevice pillowAccept [jpegSample.take 10, jpegSample.drop 10]).outputs.map Prod.fst =
      [[0xFF, 0xD8, 1, 2, 3, 4, 5, 6, 7, 8, 1, 2, 3, 4, 5, 6, 7, 8, 9, 10, 0xFF, 0xD9]] ∧
    (scanDevice pillowAccept [jpegSample.take 10, jpegSample.drop 10]).outputs.map Prod.fst ≠
      [jpegSample] ∧
    (scanDevice pillowAccept [jpegSample]).outputs.map Prod.fst = [jpegSample] := by
  decide

/-- A 1024-byte block starting with an MKV header and containing no second
header of any handled container format. -/
def mkvStreamBlock : List Nat := MKV_HEADER ++ List.replicate 1020 0

/-! ### Drain behaviour at end of stream (claims C2 and C10) -/

lemma vidEmptyStep_stop (f tb br : Nat) (ov : List Nat) (pd : Option (List Nat × VFmt))
    (ce : Nat) (out : List (List Nat × VFmt)) (h : 99 ≤ ce) :
    vidEmptyStep ⟨f, tb, br, ov, pd, ce, out⟩ = (⟨f, tb, br, ov, pd, ce + 1, out⟩, false) := by
  unfold vidEmptyStep
  rw [if_pos (by omega : 100 ≤ ce + 1)]

lemma vidEmptyStep_save (f tb br : Nat) (ov : List Nat) (vd : List Nat) (fmt : VFmt)
    (ce : Nat) (out : List (List Nat × VFmt)) (h : ce + 1 < 100)
    (hv : 1024 ≤ vd.length ∧ validateVideo vd fmt) :
    vidEmptyStep ⟨f, tb, br, ov, some (vd, fmt), ce, out⟩ =
      (⟨f + 1, tb + 1, br, ov, some (vd, fmt), ce + 1, out ++ [(vd, fmt)]⟩, true) := by
  unfold vidEmptyStep
  rw [if_neg (by omega : ¬ 100 ≤ ce + 1)]
  simp only []
  rw [if_pos hv]

lemma vidEmptyStep_skip (f tb br : Nat) (ov : List Nat) (vd : List Nat) (fmt : VFmt)
    (ce : Nat) (out : List (List Nat × VFmt)) (h : ce + 1 < 100)
    (hv : ¬ (1024 ≤ vd.length ∧ validateVideo vd fmt)) :
    vidEmptyStep ⟨f, tb, br, ov, some (vd, fmt), ce, out⟩ =
      (⟨f, tb + 1, br, ov, some (vd, fmt), ce + 1, out⟩, true) := by
  unfold vidEmptyStep
  rw [if_neg (by omega : ¬ 100 ≤ ce + 1)]
  simp only []
  rw [if_neg hv]

lemma imgEmptyStep_stop (pillow : List Nat → Option Unit) (f tb br : Nat) (ov : List Nat)
    (pd : Option (List Nat × IFmt)) (ce : Nat) (out : List (List Nat × IFmt)) (h : 99 ≤ ce) :
    imgEmptyStep pillow ⟨f, tb, br, ov, pd, ce, out⟩ = (⟨f, tb, br, ov, pd, ce + 1, out⟩, false) := by
  unfold imgEmptyStep
  rw [if_pos (by omega : 100 ≤ ce + 1)]

lemma imgEmptyStep_save (pillow : List Nat → Option Unit) (f tb br : Nat) (ov : List Nat)
    (fd : List Nat) (fmt : IFmt) (ce : Nat) (out : List (List Nat × IFmt)) (h : ce + 1 < 100)
    (hv : validateImage pillow fd fmt = true) :
    imgEmptyStep pillow ⟨f, tb, br, ov, some (fd, fmt), ce, out⟩ =
      (⟨f + 1, tb + 1, br, ov, some (fd, fmt), ce + 1, out ++ [(fd, fmt)]⟩, true) := by
  unfold imgEmptyStep
  rw [if_neg (by omega : ¬ 100 ≤ ce + 1)]
  simp only []
  rw [if_pos hv]

lemma imgEmptyStep_skip (pillow : List Nat → Option Unit) (f tb br : Nat) (ov : List Nat)
    (fd : List Nat) (fmt : IFmt) (ce : Nat) (out : List (List Nat × IFmt)) (h : ce + 1 < 100)
    (hv : ¬ validateImage pillow fd fmt = true) :
    imgEmptyStep pillow ⟨f, tb, br, ov, some (fd, fmt), ce, out⟩ =
      (⟨f, tb + 1, br, ov, some (fd, fmt), ce + 1, out⟩, true) := by
  unfold imgEmptyStep
  rw [if_neg (by omega : ¬ 100 ≤ ce + 1)]
  simp only []
  rw [if_neg hv]

lemma imgEmptyStep_nopending (pillow : List Nat → Option Unit) (f tb br : Nat)
    (ov : List Nat) (ce : Nat) (out : List (List Nat × IFmt)) (h : ce + 1 < 100) :
    imgEmptyStep pillow ⟨f, tb, br, ov, none, ce, out⟩ =
      (⟨f, tb + 1, br, ov, none, ce + 1, out⟩, true) := by
  unfold imgEmptyStep
  rw [if_neg (by omega : ¬ 100 ≤ ce + 1)]

lemma vidEmptyStep_nopending (f tb br : Nat) (ov : List Nat) (ce : Nat)
    (out : List (List Nat × VFmt)) (h : ce + 1 < 100) :
    vidEmptyStep ⟨f, tb, br, ov, none, ce, out⟩ =
      (⟨f, tb + 1, br, ov, none, ce + 1, out⟩, true) := by
  unfold vidEmptyStep
  rw [if_neg (by omega : ¬ 100 ≤ ce + 1)]

lemma drainVidAux_succ_cont {fuel : Nat} {st st1 : VidState}
    (h : vidEmptyStep st = (st1, true)) :
    drainVidAux (fuel + 1) st = drainVidAux fuel st1 := by
  simp [drainVidAux, h]

lemma drainVidAux_succ_stop {fuel : Nat} {st st1 : VidState}
    (h : vidEmptyStep st = (st1, false)) :
    drainVidAux (fuel + 1) st = st1 := by
  simp [drainVidAux, h]

lemma drainImgAux_succ_cont {pillow : List Nat → Option Unit} {fuel : Nat} {st st1 : ImgState}
    (h : imgEmptyStep pillow st = (st1, true)) :
    drainImgAux pillow (fuel + 1) st = drainImgAux pillow fuel st1 := by
  simp [drainImgAux, h]

lemma drainImgAux_succ_stop {pillow : List Nat → Option Unit} {fuel : Nat} {st st1 : ImgState}
    (h : imgEmptyStep pillow st = (st1, false)) :
    drainImgAux pillow (fuel + 1) st = st1 := by
  simp [drainImgAux, h]

lemma drainVidAux_pending_count (vd : List Nat) (fmt : VFmt) :
    ∀ (k f tb br : Nat) (ov : List Nat) (ce : Nat) (out : List (List Nat × VFmt)),
      ce + k = 100 →
      ((drainVidAux k ⟨f, tb, br, ov, some (vd, fmt), ce, out⟩).outputs =
        out ++ (if 1024 ≤ vd.length ∧ validateVideo vd fmt then
          List.replicate (k - 1) (vd, fmt) else [])) ∧
      ((drainVidAux k ⟨f, tb, br, ov, some (vd, fmt), ce, out⟩).found =
        f + (if 1024 ≤ vd.length ∧ validateVideo vd fmt then k - 1 else 0)) ∧
      ((drainVidAux k ⟨f, tb, br, ov, some (vd, fmt), ce, out⟩).pending = some (vd, fmt)) := by
  intro k
  induction k with
  | zero =>
    intro f tb br ov ce out hc
    refine ⟨?_, ?_, rfl⟩ <;> simp [drainVidAux]
  | succ n ih =>
    intro f tb br ov ce out hc
    by_cases hn : n = 0
    · subst hn
      rw [drainVidAux_succ_stop (vidEmptyStep_stop f tb br ov (some (vd, fmt)) ce out (by omega))]
      refine ⟨?_, ?_, rfl⟩ <;> simp
    · by_cases hval : 1024 ≤ vd.length ∧ validateVideo vd fmt
      · rw [drainVidAux_succ_cont (vidEmptyStep_save f tb br ov vd fmt ce out (by omega) hval)]
        obtain ⟨h1, h2, h3⟩ := ih (f + 1) (tb + 1) br ov (ce + 1) (out ++ [(vd, fmt)]) (by omega)
        rw [if_pos hval] at h1 h2
        refine ⟨?_, ?_, by simpa using h3⟩
        · rw [if_pos hval]
          have := h1
          simp only [this, List.append_assoc, List.singleton_append]
          congr 1
          obtain ⟨m, rfl⟩ : ∃ m, n = m + 1 := ⟨n - 1, by omega⟩
          simp [List.replicate_succ]
        · rw [if_pos hval]
          simp only [h2]
          omega
      · rw [drainVidAux_succ_cont (vidEmptyStep_skip f tb br ov vd fmt ce out (by omega) hval)]
        obtain ⟨h1, h2, h3⟩ := ih f (tb + 1) br ov (ce + 1) out (by omega)
        rw [if_neg hval] at h1 h2
        rw [if_neg hval, if_neg hval]
        exact ⟨by simpa using h1, by simpa using h2, by simpa using h3⟩

lemma drainImgAux_pending_count (pillow : List Nat → Option Unit) (fd : List Nat) (fmt : IFmt) :
    ∀ (k f tb br : Nat) (ov : List Nat) (ce : Nat) (out : List (List Nat × IFmt)),
      ce + k = 100 →
      ((drainImgAux pillow k ⟨f, tb, br, ov, some (fd, fmt), ce, out⟩).outputs =
        out ++ (if validateImage pillow fd fmt then List.replicate (k - 1) (fd, fmt) else [])) ∧
      ((drainImgAux pillow k ⟨f, tb, br, ov, some (fd, fmt), ce, out⟩).found =
        f + (if validateImage pillow fd fmt then k - 1 else 0)) ∧
      ((drainImgAux pillow k ⟨f, tb, br, ov, some (fd, fmt), ce, out⟩).pending = some (fd, fmt)) := by
  intro k
  induction k with
  | zero =>
    intro f tb br ov ce out hc
    refine ⟨?_, ?_, rfl⟩ <;> simp [drainImgAux]
  | succ n ih =>
    intro f tb br ov ce out hc
    by_cases hn : n = 0
    · subst hn
      rw [drainImgAux_succ_stop (imgEmptyStep_stop pillow f tb br ov (some (fd, fmt)) ce out (by omega))]
      refine ⟨?_, ?_, rfl⟩ <;> simp
    · by_cases hval : validateImage pillow fd fmt = true
      · rw [drainImgAux_succ_cont (imgEmptyStep_save pillow f tb br ov fd fmt ce out (by omega) hval)]
        obtain ⟨h1, h2, h3⟩ := ih (f + 1) (tb + 1) br ov (ce + 1) (out ++ [(fd, fmt)]) (by omega)
        rw [if_pos hval] at h1 h2
        refine ⟨?_, ?_, by simpa using h3⟩
        · rw [if_pos hval]
          simp only [h1, List.append_assoc, List.singleton_append]
          congr 1
          obtain ⟨m, rfl⟩ : ∃ m, n = m + 1 := ⟨n - 1, by omega⟩
          simp [List.replicate_succ]
        · rw [if_pos hval]
          simp only [h2]
          omega
      · rw [drainImgAux_succ_cont (imgEmptyStep_skip pillow f tb br ov fd fmt ce out (by omega) hval)]
        obtain ⟨h1, h2, h3⟩ := ih f (tb + 1) br ov (ce + 1) out (by omega)
        rw [if_neg hval] at h1 h2
        rw [if_neg hval, if_neg hval]
        exact ⟨by simpa using h1, by simpa using h2, by simpa using h3⟩

/-- The first byte of a pattern occurring anywhere in `d` is an element of
`d`. -/
lemma occursAt_head_mem {d : List Nat} {h : Nat} {t : List Nat} {i : Nat}
    (hocc : occursAt d (h :: t) i) : h ∈ d := by
  have hp : (h :: t) <+: d.drop i := List.isPrefixOf_iff_prefix.mp hocc
  exact List.mem_of_mem_drop (hp.subset (List.mem_cons_self h t))

/-- A pattern whose first byte never appears in `d` is never found. -/
lemma findMagicBytes_none_of_head_notMem {d : List Nat} {h : Nat} {t : List Nat} {s : Nat}
    (hmem : h ∉ d) : findMagicBytes d (h :: t) s = none := by
  rw [findMagicBytes_eq_none_iff (List.cons_ne_nil h t)]
  intro q _ hocc
  exact hmem (occursAt_head_mem hocc)

/-- Without any "ftyp" occurrence the MP4 detector reports nothing. -/
lemma findMp4Header_none_of_no_pattern {d : List Nat} {s : Nat}
    (h : findMagicBytes d MP4_HEADER_PATTERN s = none) : findMp4Header d s = none := by
  unfold findMp4Header
  simp [findMp4Aux, h]

/-- Without any "RIFF" occurrence the AVI detector reports nothing. -/
lemma findAviHeader_none_of_no_pattern {d : List Nat} {s : Nat}
    (h : findMagicBytes d AVI_HEADER s = none) : findAviHeader d s = none := by
  unfold findAviHeader
  simp [findAviAux, h]

/-- Every byte of the MKV-headed block is one of the four header bytes or a
zero padding byte. -/
lemma mem_mkvStreamBlock {x : Nat} (hx : x ∈ mkvStreamBlock) :
    x = 0x1A ∨ x = 0x45 ∨ x = 0xDF ∨ x = 0xA3 ∨ x = 0 := by
  simp only [mkvStreamBlock, MKV_HEADER, List.mem_append, List.mem_replicate,
    List.mem_cons, List.not_mem_nil, or_false] at hx
  tauto

/-- On the MKV-headed block the earliest detected header is the MKV one at
position 0: the first bytes of the MP4, AVI and FLV patterns occur nowhere in
the block. -/
lemma vidPickEarliest_mkv : vidPickEarliest mkvStreamBlock 0 = some (0, VFmt.mkv) := by
  have hmp4 : findMagicBytes mkvStreamBlock MP4_HEADER_PATTERN 0 = none := by
    have he : MP4_HEADER_PATTERN = 0x66 :: [0x74, 0x79, 0x70] := rfl
    rw [he]
    refine findMagicBytes_none_of_head_notMem ?_
    intro hm
    rcases mem_mkvStreamBlock hm with h | h | h | h | h <;> omega
  have havi : findMagicBytes mkvStreamBlock AVI_HEADER 0 = none := by
    have he : AVI_HEADER = 0x52 :: [0x49, 0x46, 0x46] := rfl
    rw [he]
    refine findMagicBytes_none_of_head_notMem ?_
    intro hm
    rcases mem_mkvStreamBlock hm with h | h | h | h | h <;> omega
  have hflv : findMagicBytes mkvStreamBlock FLV_HEADER 0 = none := by
    have he : FLV_HEADER = 0x46 :: [0x4C, 0x56, 0x01] := rfl
    rw [he]
    refine findMagicBytes_none_of_head_notMem ?_
    intro hm
    rcases mem_mkvStreamBlock hm with h | h | h | h | h <;> omega
  have hmkv : findMagicBytes mkvStreamBlock MKV_HEADER 0 = some 0 := by
    refine findMagicBytes_self (by decide) ?_
    show MKV_HEADER.isPrefixOf (mkvStreamBlock.drop 0) = true
    rw [List.drop_zero, List.isPrefixOf_iff_prefix]
    exact List.prefix_append _ _
  simp only [vidPickEarliest, findMp4Header_none_of_no_pattern hmp4,
    findAviHeader_none_of_no_pattern havi, hmkv, hflv]
  rfl

/-- Processing a block from the initial state amounts to the new-header search
on the block itself. -/
lemma vidProcessBlock_init (b : List Nat) :
    vidProcessBlock initVidState b
      = vidInnerPhase false ⟨0, 0 + 1, 0 + b.length, [], none, 0, []⟩ ([] ++ b) := rfl

/-- The new-header search on a long block with an earliest header at `fs`
stores the tail from `fs` as the pending candidate and carries the last bytes
of the block. -/
lemma vidInnerPhase_pick (st : VidState) (sd : List Nat) (fs : Nat) (fmt : VFmt)
    (hne : sd.isEmpty = false) (hlt : maxVidHeaderLen < sd.length)
    (hpick : vidPickEarliest sd 0 = some (fs, fmt)) :
    vidInnerPhase false st sd
      = { st with pending := some (sd.drop fs, fmt),
                  overflow := lastBytes maxVidHeaderLen sd } := by
  unfold vidInnerPhase
  simp [hne, hlt, hpick]

set_option maxRecDepth 100000 in
/-- Processing the single MKV-headed block leaves the whole block pending as
an MKV candidate, with the last four bytes carried over as the window. -/
lemma vidProcessBlock_mkv_eval :
    vidProcessBlock initVidState mkvStreamBlock =
      ⟨0, 1, 1024, [0, 0, 0, 0], some (mkvStreamBlock, VFmt.mkv), 0, []⟩ := by
  have hlen : mkvStreamBlock.length = 1024 := by
    simp [mkvStreamBlock, MKV_HEADER]
  have hne : mkvStreamBlock.isEmpty = false := rfl
  have hlast : lastBytes maxVidHeaderLen mkvStreamBlock = [0, 0, 0, 0] := by
    decide
  rw [vidProcessBlock_init, List.nil_append,
      vidInnerPhase_pick _ _ _ _ hne (by rw [hlen]; decide) vidPickEarliest_mkv]
  simp [hlast, hlen, List.drop_zero]

/-- When the block loop runs to completion without hitting the
consecutive-empty threshold, the video scan ends in the drain phase. -/
lemma scanDeviceVideos_eq_drainVid (blocks : List (List Nat)) (st : VidState)
    (h : scanVidList blocks initVidState = (st, false)) :
    scanDeviceVideos blocks = drainVid st := by
  unfold scanDeviceVideos
  rw [h]
  rfl

set_option maxRecDepth 100000 in
set_option maxHeartbeats 1000000 in
/-- The video scan on the single MKV-headed block: the pending candidate is
saved at each of the 99 tolerated empty reads at end of stream. -/
lemma scanVideos_mkv_eval :
    (scanDeviceVideos [mkvStreamBlock]).outputs =
      List.replicate 99 (mkvStreamBlock, VFmt.mkv) := by
  have hne : mkvStreamBlock.isEmpty = false := rfl
  have hlist : scanVidList [mkvStreamBlock] initVidState
      = ((⟨0, 1, 1024, [0, 0, 0, 0], some (mkvStreamBlock, VFmt.mkv), 0, []⟩ : VidState),
         false) := by
    simp only [scanVidList, hne, Bool.false_eq_true, if_false]
    rw [vidProcessBlock_mkv_eval]
  have hscan := scanDeviceVideos_eq_drainVid [mkvStreamBlock] _ hlist
  rw [hscan]
  have hval : 1024 ≤ mkvStreamBlock.length ∧ validateVideo mkvStreamBlock VFmt.mkv :=
    ⟨by decide, by decide⟩
  have h := drainVidAux_pending_count mkvStreamBlock VFmt.mkv 100 0 1 1024 [0, 0, 0, 0] 0 []
    (by omega)
  show (drainVidAux 100
    (⟨0, 1, 1024, [0, 0, 0, 0], some (mkvStreamBlock, VFmt.mkv), 0, []⟩ : VidState)).outputs = _
  rw [h.1, if_pos hval]
  simp

/-- C2 counterexample: a stream whose only content is an MKV header followed
by padding, ending without a second MKV header, yields 99 artifacts (one per
tolerated empty read at end of stream), not zero. -/
theorem fr_C2_counterexample :
    (scanDeviceVideos [mkvStreamBlock]).outputs.length = 99 := by
  rw [scanVideos_mkv_eval]
  simp

/-- C2 (amended): when the video scan reaches end of stream with a pending
container candidate (counter fresh at 0), the candidate is not discarded:
each of the 99 tolerated empty reads validates it again and, if it is at
least 1024 bytes and passes `validate_video`, saves another copy, so the scan
emits 99 artifacts; only a candidate failing those checks yields zero
artifacts. -/
theorem fr_C2_amended (st : VidState) (vd : List Nat) (fmt : VFmt)
    (hpend : st.pending = some (vd, fmt)) (hc : st.consecEmpty = 0) :
    (drainVid st).outputs = st.outputs ++
      (if 1024 ≤ vd.length ∧ validateVideo vd fmt then List.replicate 99 (vd, fmt) else []) ∧
    (drainVid st).found = st.found +
      (if 1024 ≤ vd.length ∧ validateVideo vd fmt then 99 else 0) ∧
    (drainVid st).pending = some (vd, fmt) := by
  obtain ⟨f, tb, br, ov, pd, ce, out⟩ := st
  simp only at hpend hc
  subst hpend
  subst hc
  have h := drainVidAux_pending_count vd fmt 100 f tb br ov 0 out (by omega)
  unfold drainVid
  simp only []
  exact h

set_option maxRecDepth 100000 in
set_option maxHeartbeats 1000000 in
/-- Witness for the amended C2: a pending 1024-byte MKV candidate at end of
stream is saved 99 times over. -/
theorem fr_C2_amended_witness :
    (drainVid { initVidState with pending := some (mkvStreamBlock, VFmt.mkv) }).found = 99 := by
  have h := fr_C2_amended { initVidState with pending := some (mkvStreamBlock, VFmt.mkv) }
    mkvStreamBlock VFmt.mkv rfl rfl
  rw [h.2.1]
  norm_num
  decide

/-- C10: the zero-byte-read branch of `scan_device` saves a validating
pending image candidate without clearing the pending slot, so each tolerated
empty read saves another copy and bumps the found counter again; at end of
stream a validating pending candidate is saved 99 times over. -/
theorem fr_C10_empty_branch_resaves (pillow : List Nat → Option Unit) (st : ImgState)
    (fd : List Nat) (fmt : IFmt) (hpend : st.pending = some (fd, fmt))
    (hval : validateImage pillow fd fmt = true) :
    (st.consecEmpty + 1 < 100 →
      imgEmptyStep pillow st =
        ({ st with found := st.found + 1,
                   totalBlocks := st.totalBlocks + 1,
                   consecEmpty := st.consecEmpty + 1,
                   outputs := st.outputs ++ [(fd, fmt)] }, true)) ∧
    (st.consecEmpty = 0 →
      (drainImg pillow st).outputs = st.outputs ++ List.replicate 99 (fd, fmt) ∧
      (drainImg pillow st).found = st.found + 99 ∧
      (drainImg pillow st).pending = some (fd, fmt)) := by
  obtain ⟨f, tb, br, ov, pd, ce, out⟩ := st
  simp only at hpend
  subst hpend
  constructor
  · intro h
    simp only at h
    exact imgEmptyStep_save pillow f tb br ov fd fmt ce out h hval
  · intro hce
    simp only at hce
    subst hce
    obtain ⟨h1, h2, h3⟩ := drainImgAux_pending_count pillow fd fmt 100 f tb br ov 0 out (by omega)
    rw [if_pos hval] at h1 h2
    unfold drainImg
    simp only []
    exact ⟨by simpa using h1, by simpa using h2, by simpa using h3⟩

/-- Witness for C10: a pending validating JPEG at end of stream is saved 99
times over. -/
theorem fr_C10_witness :
    (drainImg pillowAccept ⟨0, 0, 0, [], some (jpegSample, IFmt.jpeg), 0, []⟩).found = 99 := by
  have h := fr_C10_empty_branch_resaves pillowAccept
    ⟨0, 0, 0, [], some (jpegSample, IFmt.jpeg), 0, []⟩ jpegSample IFmt.jpeg rfl (by decide)
  have h2 := (h.2 rfl).2.1
  simpa using h2

/-! ### Consecutive-empty-read tolerance (claim C7) -/

/-- Every run of consecutive zero-byte reads in the block list keeps the
consecutive-empty counter strictly below 100, starting from counter `c`. -/
def emptyRunsOK : Nat → List (List Nat) → Bool
  | _, [] => true
  | c, b :: rest =>
    if b.isEmpty then decide (c + 1 < 100) && emptyRunsOK (c + 1) rest
    else emptyRunsOK 0 rest

lemma imgEmptyStep_cont_fields (pillow : List Nat → Option Unit) (st : ImgState)
    (h : st.consecEmpty + 1 < 100) :
    (imgEmptyStep pillow st).2 = true ∧
    (imgEmptyStep pillow st).1.consecEmpty = st.consecEmpty + 1 ∧
    (imgEmptyStep pillow st).1.pending = st.pending ∧
    (imgEmptyStep pillow st).1.overflow = st.overflow := by
  unfold imgEmptyStep
  rw [if_neg (by omega : ¬ 100 ≤ st.consecEmpty + 1)]
  cases hp : st.pending with
  | none => simp [hp]
  | some p =>
    obtain ⟨fd, fmt⟩ := p
    by_cases hv : validateImage pillow fd fmt = true <;> simp [hv, hp]

lemma vidEmptyStep_cont_fields (st : VidState) (h : st.consecEmpty + 1 < 100) :
    (vidEmptyStep st).2 = true ∧
    (vidEmptyStep st).1.consecEmpty = st.consecEmpty + 1 ∧
    (vidEmptyStep st).1.pending = st.pending ∧
    (vidEmptyStep st).1.overflow = st.overflow := by
  unfold vidEmptyStep
  rw [if_neg (by omega : ¬ 100 ≤ st.consecEmpty + 1)]
  cases hp : st.pending with
  | none => simp [hp]
  | some p =>
    obtain ⟨vd, fmt⟩ := p
    by_cases hv : 1024 ≤ vd.length ∧ validateVideo vd fmt <;> simp [hv, hp]

lemma imgAfterPending_consecEmpty (pillow : List Nat → Option Unit) (st : ImgState)
    (sd : List Nat) : (imgAfterPending pillow st sd).consecEmpty = st.consecEmpty := by
  unfold imgAfterPending
  cases himg : imgInner pillow sd st.overflow (sd.length + 1) 0 st.found st.outputs <;> rfl

lemma imgProcessBlock_consecEmpty (pillow : List Nat → Option Unit) (st : ImgState)
    (b : List Nat) : (imgProcessBlock pillow st b).consecEmpty = 0 := by
  obtain ⟨f, tb, br, ov, pd, ce, out⟩ := st
  cases pd with
  | none => simp [imgProcessBlock, imgAfterPending_consecEmpty]
  | some p =>
    obtain ⟨fd, fmt⟩ := p
    cases hf : findMagicBytes (ov ++ b) (ifmtFooter fmt) 0 with
    | none => simp [imgProcessBlock, hf]
    | some fp =>
      by_cases hv :
          validateImage pillow (fd ++ (ov ++ b).take (fp + (ifmtFooter fmt).length)) fmt = true <;>
        simp [imgProcessBlock, hf, hv, imgAfterPending_consecEmpty]

lemma vidInnerPhase_consecEmpty (ic : Bool) (st : VidState) (sd : List Nat) :
    (vidInnerPhase ic st sd).consecEmpty = st.consecEmpty := by
  unfold vidInnerPhase
  by_cases hsd : sd.isEmpty = true
  · simp [hsd]
  · by_cases hic : ic = true
    · simp [hsd, hic]
    · cases hpick : vidPickEarliest sd 0 with
      | none => simp [hsd, hic, hpick]
      | some p => obtain ⟨fs, fmt⟩ := p; simp [hsd, hic, hpick]

lemma vidProcessBlock_consecEmpty (st : VidState) (b : List Nat) :
    (vidProcessBlock st b).consecEmpty = 0 := by
  obtain ⟨f, tb, br, ov, pd, ce, out⟩ := st
  cases pd with
  | none =>
    simp only [vidProcessBlock, vidProcessBlockCore]
    rw [vidInnerPhase_consecEmpty]
  | some p =>
    obtain ⟨vd, fmt⟩ := p
    cases hn : vidNextHeader (ov ++ b) fmt with
    | none =>
      simp only [vidProcessBlock, vidProcessBlockCore, vidPendingFallback, hn]
      split
      · rw [vidInnerPhase_consecEmpty]
        split <;> rfl
      · rfl
    | some h =>
      simp only [vidProcessBlock, vidProcessBlockCore, vidPendingFallback, hn]
      split
      · rw [vidInnerPhase_consecEmpty]
        split <;> rfl
      · split
        · rw [vidInnerPhase_consecEmpty]
          split <;> rfl
        · rfl

lemma scanImgList_no_break (pillow : List Nat → Option Unit) :
    ∀ (blocks : List (List Nat)) (st : ImgState),
      emptyRunsOK st.consecEmpty blocks = true → (scanImgList pillow blocks st).2 = false := by
  intro blocks
  induction blocks with
  | nil => intro st _; rfl
  | cons b rest ih =>
    intro st h
    unfold scanImgList
    unfold emptyRunsOK at h
    by_cases hb : b.isEmpty = true
    · rw [if_pos hb]
      rw [if_pos hb] at h
      rw [Bool.and_eq_true, decide_eq_true_eq] at h
      obtain ⟨hlt, hrest⟩ := h
      obtain ⟨h2, hce, _, _⟩ := imgEmptyStep_cont_fields pillow st hlt
      simp only [h2, if_true]
      exact ih _ (by rw [hce]; exact hrest)
    · rw [if_neg hb]
      rw [if_neg hb] at h
      exact ih _ (by rw [imgProcessBlock_consecEmpty]; exact h)

lemma scanVidList_no_break :
    ∀ (blocks : List (List Nat)) (st : VidState),
      emptyRunsOK st.consecEmpty blocks = true → (scanVidList blocks st).2 = false := by
  intro blocks
  induction blocks with
  | nil => intro st _; rfl
  | cons b rest ih =>
    intro st h
    unfold scanVidList
    unfold emptyRunsOK at h
    by_cases hb : b.isEmpty = true
    · rw [if_pos hb]
      rw [if_pos hb] at h
      rw [Bool.and_eq_true, decide_eq_true_eq] at h
      obtain ⟨hlt, hrest⟩ := h
      obtain ⟨h2, hce, _, _⟩ := vidEmptyStep_cont_fields st hlt
      simp only [h2, if_true]
      exact ih _ (by rw [hce]; exact hrest)
    · rw [if_neg hb]
      rw [if_neg hb] at h
      exact ih _ (by rw [vidProcessBlock_consecEmpty]; exact h)

/-- C7: both scan loops tolerate zero-byte reads: the loop stops exactly when
the consecutive-empty counter reaches 100, a nonempty read resets the counter
to zero, an empty read below the threshold keeps the pending candidate and
the carry window intact (no data loss), and a block list whose empty runs all
stay below 100 is consumed in full (the loop never breaks early). -/
theorem fr_C7_empty_tolerance :
    (∀ (pillow : List Nat → Option Unit) (st : ImgState) (b : List Nat), b.isEmpty = false →
      (imgProcessBlock pillow st b).consecEmpty = 0) ∧
    (∀ (pillow : List Nat → Option Unit) (st : ImgState), 100 ≤ st.consecEmpty + 1 →
      imgEmptyStep pillow st = ({ st with consecEmpty := st.consecEmpty + 1 }, false)) ∧
    (∀ (pillow : List Nat → Option Unit) (st : ImgState), st.consecEmpty + 1 < 100 →
      (imgEmptyStep pillow st).2 = true ∧
      (imgEmptyStep pillow st).1.pending = st.pending ∧
      (imgEmptyStep pillow st).1.overflow = st.overflow) ∧
    (∀ (pillow : List Nat → Option Unit) (blocks : List (List Nat)) (st : ImgState),
      emptyRunsOK st.consecEmpty blocks = true → (scanImgList pillow blocks st).2 = false) ∧
    (∀ (st : VidState) (b : List Nat), b.isEmpty = false →
      (vidProcessBlock st b).consecEmpty = 0) ∧
    (∀ (st : VidState), 100 ≤ st.consecEmpty + 1 →
      vidEmptyStep st = ({ st with consecEmpty := st.consecEmpty + 1 }, false)) ∧
    (∀ (st : VidState), st.consecEmpty + 1 < 100 →
      (vidEmptyStep st).2 = true ∧
      (vidEmptyStep st).1.pending = st.pending ∧
      (vidEmptyStep st).1.overflow = st.overflow) ∧
    (∀ (blocks : List (List Nat)) (st : VidState),
      emptyRunsOK st.consecEmpty blocks = true → (scanVidList blocks st).2 = false) := by
  refine ⟨?_, ?_, ?_, ?_, ?_, ?_, ?_, ?_⟩
  · intro pillow st b _
    exact imgProcessBlock_consecEmpty pillow st b
  · intro pillow st h
    unfold imgEmptyStep
    rw [if_pos (by omega : 100 ≤ st.consecEmpty + 1)]
  · intro pillow st h
    obtain ⟨h1, _, h3, h4⟩ := imgEmptyStep_cont_fields pillow st h
    exact ⟨h1, h3, h4⟩
  · exact fun pillow blocks st => scanImgList_no_break pillow blocks st
  · intro st b _
    exact vidProcessBlock_consecEmpty st b
  · intro st h
    unfold vidEmptyStep
    rw [if_pos (by omega : 100 ≤ st.consecEmpty + 1)]
  · intro st h
    obtain ⟨h1, _, h3, h4⟩ := vidEmptyStep_cont_fields st h
    exact ⟨h1, h3, h4⟩
  · exact fun blocks st => scanVidList_no_break blocks st

/-- Witness for C7: a stream of one nonempty block, 99 empty reads and
another nonempty block is consumed without an early break, and a nonempty
read resets the counter. -/
theorem fr_C7_witness :
    (imgProcessBlock pillowAccept ⟨0, 0, 0, [], none, 7, []⟩ [1]).consecEmpty = 0 ∧
    (scanImgList pillowAccept ([1] :: List.replicate 99 [] ++ [[2]]) initImgState).2 = false ∧
    (scanVidList ([1] :: List.replicate 99 [] ++ [[2]]) initVidState).2 = false := by
  refine ⟨?_, ?_, ?_⟩
  · exact fr_C7_empty_tolerance.1 pillowAccept ⟨0, 0, 0, [], none, 7, []⟩ [1] rfl
  · exact fr_C7_empty_tolerance.2.2.2.1 pillowAccept ([1] :: List.replicate 99 [] ++ [[2]])
      initImgState (by decide)
  · exact fr_C7_empty_tolerance.2.2.2.2.2.2.2 ([1] :: List.replicate 99 [] ++ [[2]])
      initVidState (by decide)

/-! ### Validation totality and the saved-implies-validated invariant (claim C6) -/

/-- The outputs accumulated in an inner-search result. -/
def innerOutputs : ImgInnerRes → List (List Nat × IFmt)
  | ImgInnerRes.done _ os => os
  | ImgInnerRes.toPending _ os _ _ => os

lemma imgInner_valid (pillow : List Nat → Option Unit) (sd ovf0 : List Nat) :
    ∀ (fuel pos found : Nat) (outputs : List (List Nat × IFmt)),
      (∀ o ∈ outputs, validateImage pillow o.1 o.2 = true) →
      ∀ o ∈ innerOutputs (imgInner pillow sd ovf0 fuel pos found outputs),
        validateImage pillow o.1 o.2 = true := by
  intro fuel
  induction fuel with
  | zero => intro pos found outputs h; simpa [imgInner, innerOutputs] using h
  | succ n ih =>
    intro pos found outputs h
    by_cases hpos : pos < sd.length
    · cases hch : imgChooseHeader (findMagicBytes sd JPEG_HEADER pos)
          (findMagicBytes sd PNG_HEADER pos) with
      | none => simpa [imgInner, hpos, hch, innerOutputs] using h
      | some c =>
        obtain ⟨fileStart, fmt⟩ := c
        cases hft : findMagicBytes sd (ifmtFooter fmt) (fileStart + (ifmtHeader fmt).length) with
        | none => simpa [imgInner, hpos, hch, hft, innerOutputs] using h
        | some fp =>
          by_cases hv :
              validateImage pillow ((sd.take (fp + (ifmtFooter fmt).length)).drop fileStart) fmt
                = true
          · have hext : ∀ o ∈ outputs ++
                [((sd.take (fp + (ifmtFooter fmt).length)).drop fileStart, fmt)],
                validateImage pillow o.1 o.2 = true := by
              intro o ho
              rcases List.mem_append.mp ho with ho | ho
              · exact h o ho
              · rcases List.mem_singleton.mp ho with rfl
                simpa using hv
            have := ih (fp + (ifmtFooter fmt).length) (found + 1)
              (outputs ++ [((sd.take (fp + (ifmtFooter fmt).length)).drop fileStart, fmt)]) hext
            simpa [imgInner, hpos, hch, hft, hv] using this
          · have := ih (fp + (ifmtFooter fmt).length) found outputs h
            simpa [imgInner, hpos, hch, hft, hv] using this
    · simpa [imgInner, hpos, innerOutputs] using h

lemma imgAfterPending_valid (pillow : List Nat → Option Unit) (st : ImgState) (sd : List Nat)
    (h : ∀ o ∈ st.outputs, validateImage pillow o.1 o.2 = true) :
    ∀ o ∈ (imgAfterPending pillow st sd).outputs, validateImage pillow o.1 o.2 = true := by
  unfold imgAfterPending
  have hv := imgInner_valid pillow sd st.overflow (sd.length + 1) 0 st.found st.outputs h
  cases himg : imgInner pillow sd st.overflow (sd.length + 1) 0 st.found st.outputs with
  | done found os =>
    rw [himg] at hv
    simpa [innerOutputs] using hv
  | toPending found os pend ovf =>
    rw [himg] at hv
    simpa [innerOutputs] using hv

lemma imgProcessBlock_valid (pillow : List Nat → Option Unit) (st : ImgState) (b : List Nat)
    (h : ∀ o ∈ st.outputs, validateImage pillow o.1 o.2 = true) :
    ∀ o ∈ (imgProcessBlock pillow st b).outputs, validateImage pillow o.1 o.2 = true := by
  obtain ⟨f, tb, br, ov, pd, ce, out⟩ := st
  simp only at h
  cases pd with
  | none =>
    simp only [imgProcessBlock]
    exact imgAfterPending_valid pillow _ _ (by simpa using h)
  | some p =>
    obtain ⟨fd, fmt⟩ := p
    cases hf : findMagicBytes (ov ++ b) (ifmtFooter fmt) 0 with
    | none =>
      simp only [imgProcessBlock, hf]
      simpa using h
    | some fp =>
      simp only [imgProcessBlock, hf]
      by_cases hv :
          validateImage pillow (fd ++ (ov ++ b).take (fp + (ifmtFooter fmt).length)) fmt = true
      · rw [if_pos hv]
        apply imgAfterPending_valid
        intro o ho
        simp only at ho
        rcases List.mem_append.mp ho with ho | ho
        · exact h o ho
        · rcases List.mem_singleton.mp ho with rfl
          simpa using hv
      · rw [if_neg hv]
        apply imgAfterPending_valid
        simpa using h

lemma imgEmptyStep_valid (pillow : List Nat → Option Unit) (st : ImgState)
    (h : ∀ o ∈ st.outputs, validateImage pillow o.1 o.2 = true) :
    ∀ o ∈ (imgEmptyStep pillow st).1.outputs, validateImage pillow o.1 o.2 = true := by
  obtain ⟨f, tb, br, ov, pd, ce, out⟩ := st
  simp only at h
  by_cases hc : 99 ≤ ce
  · rw [imgEmptyStep_stop pillow f tb br ov pd ce out hc]
    simpa using h
  · cases pd with
    | none =>
      rw [imgEmptyStep_nopending pillow f tb br ov ce out (by omega)]
      simpa using h
    | some p =>
      obtain ⟨fd, fmt⟩ := p
      by_cases hv : validateImage pillow fd fmt = true
      · rw [imgEmptyStep_save pillow f tb br ov fd fmt ce out (by omega) hv]
        intro o ho
        rcases List.mem_append.mp ho with ho | ho
        · exact h o ho
        · rcases List.mem_singleton.mp ho with rfl
          simpa using hv
      · rw [imgEmptyStep_skip pillow f tb br ov fd fmt ce out (by omega) hv]
        simpa using h

lemma drainImgAux_valid (pillow : List Nat → Option Unit) :
    ∀ (fuel : Nat) (st : ImgState), (∀ o ∈ st.outputs, validateImage pillow o.1 o.2 = true) →
      ∀ o ∈ (drainImgAux pillow fuel st).outputs, validateImage pillow o.1 o.2 = true := by
  intro fuel
  induction fuel with
  | zero => intro st h; simpa [drainImgAux] using h
  | succ n ih =>
    intro st h
    have hstep := imgEmptyStep_valid pillow st h
    cases hpr : (imgEmptyStep pillow st).2 with
    | true =>
      have : drainImgAux pillow (n + 1) st = drainImgAux pillow n (imgEmptyStep pillow st).1 := by
        simp [drainImgAux, hpr]
      rw [this]
      exact ih _ hstep
    | false =>
      have : drainImgAux pillow (n + 1) st = (imgEmptyStep pillow st).1 := by
        simp [drainImgAux, hpr]
      rw [this]
      exact hstep

lemma scanImgList_valid (pillow : List Nat → Option Unit) :
    ∀ (blocks : List (List Nat)) (st : ImgState),
      (∀ o ∈ st.outputs, validateImage pillow o.1 o.2 = true) →
      ∀ o ∈ (scanImgList pillow blocks st).1.outputs, validateImage pillow o.1 o.2 = true := by
  intro blocks
  induction blocks with
  | nil => intro st h; simpa [scanImgList] using h
  | cons b rest ih =>
    intro st h
    by_cases hb : b.isEmpty = true
    · have hstep := imgEmptyStep_valid pillow st h
      cases hpr : (imgEmptyStep pillow st).2 with
      | true =>
        have heq : scanImgList pillow (b :: rest) st =
            scanImgList pillow rest (imgEmptyStep pillow st).1 := by
          simp [scanImgList, hb, hpr]
        rw [heq]
        exact ih _ hstep
      | false =>
        have heq : scanImgList pillow (b :: rest) st = ((imgEmptyStep pillow st).1, true) := by
          simp [scanImgList, hb, hpr]
        rw [heq]
        exact hstep
    · have heq : scanImgList pillow (b :: rest) st =
          scanImgList pillow rest (imgProcessBlock pillow st b) := by
        simp [scanImgList, hb]
      rw [heq]
      exact ih _ (imgProcessBlock_valid pillow st b h)

lemma scanDevice_valid (pillow : List Nat → Option Unit) (blocks : List (List Nat)) :
    ∀ o ∈ (scanDevice pillow blocks).outputs, validateImage pillow o.1 o.2 = true := by
  unfold scanDevice
  have hlist := scanImgList_valid pillow blocks initImgState (by simp [initImgState])
  cases hpr : (scanImgList pillow blocks initImgState).2 with
  | true => simpa [hpr] using hlist
  | false =>
    simp only [hpr]
    simp only [Bool.false_eq_true, if_false]
    exact drainImgAux_valid pillow _ _ hlist

lemma vidInnerPhase_outputs (ic : Bool) (st : VidState) (sd : List Nat) :
    (vidInnerPhase ic st sd).outputs = st.outputs := by
  unfold vidInnerPhase
  by_cases hsd : sd.isEmpty = true
  · simp [hsd]
  · by_cases hic : ic = true
    · simp [hsd, hic]
    · cases hpick : vidPickEarliest sd 0 with
      | none => simp [hsd, hic, hpick]
      | some p => obtain ⟨fs, fmt⟩ := p; simp [hsd, hic, hpick]

lemma vidProcessBlockCore_valid (ic : Bool) (st : VidState) (b : List Nat)
    (h : ∀ o ∈ st.outputs, validateVideo o.1 o.2 = true) :
    ∀ o ∈ (vidProcessBlockCore ic st b).1.outputs, validateVideo o.1 o.2 = true := by
  obtain ⟨f, tb, br, ov, pd, ce, out⟩ := st
  simp only at h
  cases pd with
  | none =>
    simp only [vidProcessBlockCore]
    rw [vidInnerPhase_outputs]
    simpa using h
  | some p =>
    obtain ⟨vd, fmt⟩ := p
    cases hn : vidNextHeader (ov ++ b) fmt with
    | none =>
      simp only [vidProcessBlockCore, vidPendingFallback, hn]
      split
      · rw [vidInnerPhase_outputs]
        split
        · rename_i hv
          intro o ho
          simp only at ho
          rcases List.mem_append.mp ho with ho | ho
          · exact h o ho
          · rcases List.mem_singleton.mp ho with rfl
            simpa using hv.2
        · simpa using h
      · simpa using h
    | some hd =>
      simp only [vidProcessBlockCore, vidPendingFallback, hn]
      split
      · rw [vidInnerPhase_outputs]
        split
        · rename_i hv
          intro o ho
          simp only at ho
          rcases List.mem_append.mp ho with ho | ho
          · exact h o ho
          · rcases List.mem_singleton.mp ho with rfl
            simpa using hv.2
        · simpa using h
      · split
        · rw [vidInnerPhase_outputs]
          split
          · rename_i hv
            intro o ho
            simp only at ho
            rcases List.mem_append.mp ho with ho | ho
            · exact h o ho
            · rcases List.mem_singleton.mp ho with rfl
              simpa using hv.2
          · simpa using h
        · simpa using h

lemma vidEmptyStep_valid (st : VidState)
    (h : ∀ o ∈ st.outputs, validateVideo o.1 o.2 = true) :
    ∀ o ∈ (vidEmptyStep st).1.outputs, validateVideo o.1 o.2 = true := by
  obtain ⟨f, tb, br, ov, pd, ce, out⟩ := st
  simp only at h
  by_cases hc : 99 ≤ ce
  · rw [vidEmptyStep_stop f tb br ov pd ce out hc]
    simpa using h
  · cases pd with
    | none =>
      rw [vidEmptyStep_nopending f tb br ov ce out (by omega)]
      simpa using h
    | some p =>
      obtain ⟨vd, fmt⟩ := p
      by_cases hv : 1024 ≤ vd.length ∧ validateVideo vd fmt = true
      · rw [vidEmptyStep_save f tb br ov vd fmt ce out (by omega) hv]
        intro o ho
        rcases List.mem_append.mp ho with ho | ho
        · exact h o ho
        · rcases List.mem_singleton.mp ho with rfl
          simpa using hv.2
      · rw [vidEmptyStep_skip f tb br ov vd fmt ce out (by omega) hv]
        simpa using h

lemma drainVidAux_valid :
    ∀ (fuel : Nat) (st : VidState), (∀ o ∈ st.outputs, validateVideo o.1 o.2 = true) →
      ∀ o ∈ (drainVidAux fuel st).outputs, validateVideo o.1 o.2 = true := by
  intro fuel
  induction fuel with
  | zero => intro st h; simpa [drainVidAux] using h
  | succ n ih =>
    intro st h
    have hstep := vidEmptyStep_valid st h
    cases hpr : (vidEmptyStep st).2 with
    | true =>
      have : drainVidAux (n + 1) st = drainVidAux n (vidEmptyStep st).1 := by
        simp [drainVidAux, hpr]
      rw [this]
      exact ih _ hstep
    | false =>
      have : drainVidAux (n + 1) st = (vidEmptyStep st).1 := by
        simp [drainVidAux, hpr]
      rw [this]
      exact hstep

lemma scanVidList_valid :
    ∀ (blocks : List (List Nat)) (st : VidState),
      (∀ o ∈ st.outputs, validateVideo o.1 o.2 = true) →
      ∀ o ∈ (scanVidList blocks st).1.outputs, validateVideo o.1 o.2 = true := by
  intro blocks
  induction blocks with
  | nil => intro st h; simpa [scanVidList] using h
  | cons b rest ih =>
    intro st h
    by_cases hb : b.isEmpty = true
    · have hstep := vidEmptyStep_valid st h
      cases hpr : (vidEmptyStep st).2 with
      | true =>
        have heq : scanVidList (b :: rest) st = scanVidList rest (vidEmptyStep st).1 := by
          simp [scanVidList, hb, hpr]
        rw [heq]
        exact ih _ hstep
      | false =>
        have heq : scanVidList (b :: rest) st = ((vidEmptyStep st).1, true) := by
          simp [scanVidList, hb, hpr]
        rw [heq]
        exact hstep
    · have heq : scanVidList (b :: rest) st = scanVidList rest (vidProcessBlock st b) := by
        simp [scanVidList, hb]
      rw [heq]
      exact ih _ (vidProcessBlockCore_valid false st b h)

lemma scanDeviceVideos_valid (blocks : List (List Nat)) :
    ∀ o ∈ (scanDeviceVideos blocks).outputs, validateVideo o.1 o.2 = true := by
  unfold scanDeviceVideos
  have hlist := scanVidList_valid blocks initVidState (by simp [initVidState])
  cases hpr : (scanVidList blocks initVidState).2 with
  | true => simpa [hpr] using hlist
  | false =>
    simp only [hpr]
    simp only [Bool.false_eq_true, if_false]
    exact drainVidAux_valid _ _ hlist

/-- C6: `validate_image` and `validate_video` are total functions of their
input (the embedding needs no error monad): a raised Pillow exception is
caught and mapped to a `false` result, and every buffer either scan ever
hands to its sink passed validation, so a candidate failing validation is
dropped and never written. -/
theorem fr_C6_validation_total :
    (∀ (pillow : List Nat → Option Unit) (data : List Nat) (fmt : IFmt),
      pillow data = none → validateImage pillow data fmt = false) ∧
    (∀ (pillow : List Nat → Option Unit) (blocks : List (List Nat)),
      ∀ o ∈ (scanDevice pillow blocks).outputs, validateImage pillow o.1 o.2 = true) ∧
    (∀ (blocks : List (List Nat)),
      ∀ o ∈ (scanDeviceVideos blocks).outputs, validateVideo o.1 o.2 = true) := by
  refine ⟨?_, ?_, ?_⟩
  · intro pillow data fmt h
    unfold validateImage
    split
    · rfl
    · cases fmt <;> simp [h]
  · exact scanDevice_valid
  · exact scanDeviceVideos_valid

set_option maxRecDepth 4000 in
/-- Witness for C6: a raising decoder yields `false` on the sample JPEG; the
artifact recovered from the sample JPEG stream passed image validation, and
the artifacts of the MKV stream passed video validation. -/
theorem fr_C6_witness :
    validateImage (fun _ => none) jpegSample IFmt.jpeg = false ∧
    validateImage pillowAccept jpegSample IFmt.jpeg = true ∧
    validateVideo mkvStreamBlock VFmt.mkv = true := by
  refine ⟨fr_C6_validation_total.1 (fun _ => none) jpegSample IFmt.jpeg rfl, ?_, ?_⟩
  · exact fr_C6_validation_total.2.1 pillowAccept [jpegSample] (jpegSample, IFmt.jpeg)
      (by decide)
  · exact fr_C6_validation_total.2.2 [mkvStreamBlock] (mkvStreamBlock, VFmt.mkv)
      (by rw [scanVideos_mkv_eval]; exact List.mem_replicate.mpr ⟨by omega, rfl⟩)

/-! ### Cancellation safety (claim C3) -/

lemma cancelSafe_pf (t : List ScanEv) : cancelSafe (ScanEv.pollFalse :: t) = cancelSafe t := rfl

lemma cancelSafe_rb (t : List ScanEv) : cancelSafe (ScanEv.readBlk :: t) = cancelSafe t := rfl

lemma cancelSafe_save (d : List Nat) (t : List ScanEv) :
    cancelSafe (ScanEv.save d :: t) = cancelSafe t := rfl

lemma cancelSafe_pT (t : List ScanEv) : cancelSafe (ScanEv.pollTrue :: t) = (t = []) := rfl

lemma cancelSafe_piT (t : List ScanEv) :
    cancelSafe (ScanEv.pollInnerTrue :: t) = (saveFree t = true) := rfl

lemma cancelSafe_piF (t : List ScanEv) :
    cancelSafe (ScanEv.pollInnerFalse :: t) = cancelSafe t := rfl

lemma cancelSafe_newSaves_append {α : Type} (old new : List (List Nat × α)) (t : List ScanEv) :
    cancelSafe (newSaves old new ++ t) ↔ cancelSafe t := by
  unfold newSaves
  generalize new.drop old.length = l
  induction l with
  | nil => simp
  | cons x xs ih => simpa [cancelSafe_save] using ih

lemma imgTraceAux_of_cancelled (pillow : List Nat → Option Unit) (cancel : Nat → Bool)
    (fuel : Nat) (blocks : List (List Nat)) (st : ImgState) (pc : Nat)
    (h : cancel pc = true) :
    saveFree (imgTraceAux pillow cancel fuel blocks st pc) = true := by
  cases fuel with
  | zero => rfl
  | succ n =>
    simp only [imgTraceAux, h, if_true]
    rfl

lemma vidTraceAux_of_cancelled (cancel : Nat → Bool) (fuel : Nat) (blocks : List (List Nat))
    (st : VidState) (pc : Nat) (h : cancel pc = true) :
    saveFree (vidTraceAux cancel fuel blocks st pc) = true := by
  cases fuel with
  | zero => rfl
  | succ n =>
    simp only [vidTraceAux, h, if_true]
    rfl

lemma imgTraceAux_cancelSafe (pillow : List Nat → Option Unit) (cancel : Nat → Bool) :
    ∀ (fuel : Nat) (blocks : List (List Nat)) (st : ImgState) (pc : Nat),
      cancelSafe (imgTraceAux pillow cancel fuel blocks st pc) := by
  intro fuel
  induction fuel with
  | zero => intro blocks st pc; exact trivial
  | succ n ih =>
    intro blocks st pc
    by_cases h0 : cancel pc = true
    · simp only [imgTraceAux, h0, if_true]
      rw [cancelSafe_pT]
    · by_cases h1 : cancel (pc + 1) = true
      · simp only [imgTraceAux, h0, h1, if_true, if_false, Bool.false_eq_true]
        rw [cancelSafe_pf, cancelSafe_rb, cancelSafe_pT]
      · by_cases hb : (blocks.headD []).isEmpty = true
        · cases hpr : (imgEmptyStep pillow st).2 with
          | true =>
            simp only [imgTraceAux, h0, h1, hb, hpr, if_true, if_false, Bool.false_eq_true]
            rw [cancelSafe_pf, cancelSafe_rb, cancelSafe_pf]
            exact (cancelSafe_newSaves_append _ _ _).mpr (ih _ _ _)
          | false =>
            simp only [imgTraceAux, h0, h1, hb, hpr, if_true, if_false, Bool.false_eq_true]
            rw [cancelSafe_pf, cancelSafe_rb, cancelSafe_pf]
            exact trivial
        · simp only [imgTraceAux, h0, h1, hb, if_true, if_false, Bool.false_eq_true]
          rw [cancelSafe_pf, cancelSafe_rb, cancelSafe_pf]
          exact (cancelSafe_newSaves_append _ _ _).mpr (ih _ _ _)

lemma vidTraceAux_cancelSafe (cancel : Nat → Bool)
    (hmono : ∀ i j, i ≤ j → cancel i = true → cancel j = true) :
    ∀ (fuel : Nat) (blocks : List (List Nat)) (st : VidState) (pc : Nat),
      cancelSafe (vidTraceAux cancel fuel blocks st pc) := by
  intro fuel
  induction fuel with
  | zero => intro blocks st pc; exact trivial
  | succ n ih =>
    intro blocks st pc
    by_cases h0 : cancel pc = true
    · simp only [vidTraceAux, h0, if_true]
      rw [cancelSafe_pT]
    · by_cases h1 : cancel (pc + 1) = true
      · simp only [vidTraceAux, h0, h1, if_true, if_false, Bool.false_eq_true]
        rw [cancelSafe_pf, cancelSafe_rb, cancelSafe_pT]
      · by_cases hb : (blocks.headD []).isEmpty = true
        · cases hpr : (vidEmptyStep st).2 with
          | true =>
            simp only [vidTraceAux, h0, h1, hb, hpr, if_true, if_false, Bool.false_eq_true]
            rw [cancelSafe_pf, cancelSafe_rb, cancelSafe_pf]
            exact (cancelSafe_newSaves_append _ _ _).mpr (ih _ _ _)
          | false =>
            simp only [vidTraceAux, h0, h1, hb, hpr, if_true, if_false, Bool.false_eq_true]
            rw [cancelSafe_pf, cancelSafe_rb, cancelSafe_pf]
            exact trivial
        · by_cases hcin : cancel (pc + 2) = true
          · cases hpr2 : (vidProcessBlockCore true st (blocks.headD [])).2 with
            | true =>
              simp only [vidTraceAux, h0, h1, hb, hcin, hpr2, if_true, if_false,
                Bool.false_eq_true]
              rw [cancelSafe_pf, cancelSafe_rb, cancelSafe_pf, List.append_assoc,
                List.singleton_append]
              exact (cancelSafe_newSaves_append _ _ _).mpr
                (by
                  rw [cancelSafe_piT]
                  exact vidTraceAux_of_cancelled cancel n _ _ (pc + 2 + 1)
                    (hmono (pc + 2) (pc + 2 + 1) (by omega) hcin))
            | false =>
              simp only [vidTraceAux, h0, h1, hb, hcin, hpr2, if_true, if_false,
                Bool.false_eq_true]
              rw [cancelSafe_pf, cancelSafe_rb, cancelSafe_pf, List.append_nil]
              exact (cancelSafe_newSaves_append _ _ _).mpr (ih _ _ _)
          · cases hpr2 : (vidProcessBlockCore false st (blocks.headD [])).2 with
            | true =>
              simp only [vidTraceAux, h0, h1, hb, hcin, hpr2, if_true, if_false,
                Bool.false_eq_true]
              rw [cancelSafe_pf, cancelSafe_rb, cancelSafe_pf, List.append_assoc,
                List.singleton_append]
              exact (cancelSafe_newSaves_append _ _ _).mpr
                (by rw [cancelSafe_piF]; exact ih _ _ _)
            | false =>
              simp only [vidTraceAux, h0, h1, hb, hcin, hpr2, if_true, if_false,
                Bool.false_eq_true]
              rw [cancelSafe_pf, cancelSafe_rb, cancelSafe_pf, List.append_nil]
              exact (cancelSafe_newSaves_append _ _ _).mpr (ih _ _ _)

/-- C3: under a cancellation flag that stays set once set, every run of
either scan loop is cancellation safe: when one of the two outer polls (top
of iteration, or right after the read) observes the flag, the loop exits at
once and nothing more happens (in particular the live candidate is never
saved), and when the extra poll inside the video header search observes the
flag no file is written afterwards.  This holds for every fuel bound, i.e.
for every finite prefix of the run. -/
theorem fr_C3_cancellation_safe (pillow : List Nat → Option Unit) (cancel : Nat → Bool)
    (hmono : ∀ i j, i ≤ j → cancel i = true → cancel j = true)
    (fuel : Nat) (blocks : List (List Nat)) (stI : ImgState) (stV : VidState) (pc : Nat) :
    cancelSafe (imgTraceAux pillow cancel fuel blocks stI pc) ∧
    cancelSafe (vidTraceAux cancel fuel blocks stV pc) :=
  ⟨imgTraceAux_cancelSafe pillow cancel fuel blocks stI pc,
   vidTraceAux_cancelSafe cancel hmono fuel blocks stV pc⟩

set_option maxRecDepth 4000 in
/-- Witness for C3: the flag set from the first poll on ends both runs at the
first poll. -/
theorem fr_C3_witness :
    cancelSafe (imgTraceAux pillowAccept (fun _ => true) 3 [jpegSample] initImgState 0) ∧
    cancelSafe (vidTraceAux (fun _ => true) 3 [jpegSample] initVidState 0) :=
  fr_C3_cancellation_safe pillowAccept (fun _ => true) (fun _ _ _ h => h) 3 [jpegSample]
    initImgState initVidState 0

/-! ### Two adjacent PNGs in one block (claim C4) -/

lemma occursAt_of_startsWith {xs pat : List Nat} (h : pat <+: xs) : occursAt xs pat 0 := by
  unfold occursAt
  rw [List.drop_zero]
  exact List.isPrefixOf_iff_prefix.mpr h

lemma occursAt_of_suffix {xs pat : List Nat} (h : pat <:+ xs) :
    occursAt xs pat (xs.length - pat.length) := by
  unfold occursAt
  rw [← List.suffix_iff_eq_drop.mp h]
  exact List.isPrefixOf_iff_prefix.mpr (List.prefix_refl _)

lemma occursAt_append_left_iff {xs ys pat : List Nat} {i : Nat}
    (h : i + pat.length ≤ xs.length) :
    occursAt (xs ++ ys) pat i ↔ occursAt xs pat i := by
  unfold occursAt
  rw [List.drop_append_of_le_length (show i ≤ xs.length by omega)]
  constructor
  · intro hp
    rw [List.isPrefixOf_iff_prefix] at hp ⊢
    rw [List.prefix_iff_eq_take] at hp ⊢
    rw [List.take_append_of_le_length
      (show pat.length ≤ (xs.drop i).length by rw [List.length_drop]; omega)] at hp
    exact hp
  · intro hp
    rw [List.isPrefixOf_iff_prefix] at hp ⊢
    exact hp.trans (List.prefix_append _ _)

lemma occursAt_append_right_iff {xs ys pat : List Nat} {j : Nat} :
    occursAt (xs ++ ys) pat (xs.length + j) ↔ occursAt ys pat j := by
  unfold occursAt
  rw [List.drop_append]

lemma suffix_drop_of_le {xs pat : List Nat} {n : Nat} (h : pat <:+ xs)
    (hn : n + pat.length ≤ xs.length) : pat <:+ xs.drop n := by
  rw [List.suffix_iff_eq_drop] at h ⊢
  rw [List.length_drop, List.drop_drop]
  have harith : n + (xs.length - n - pat.length) = xs.length - pat.length := by omega
  rw [harith]
  exact h

lemma findMagicBytes_isSome_of_occurs {d pat : List Nat} {i s : Nat} (hpat : pat ≠ [])
    (hs : s ≤ i) (h : occursAt d pat i) : (findMagicBytes d pat s).isSome = true := by
  cases hfm : findMagicBytes d pat s with
  | some p => rfl
  | none => exact absurd h ((findMagicBytes_eq_none_iff hpat).mp hfm i hs)

lemma pngFooter_in_last100 {p : List Nat} (hsuf : PNG_FOOTER <:+ p) (hlen : 16 ≤ p.length) :
    bytesContains (lastBytes 100 p) PNG_FOOTER = true := by
  have hfl : PNG_FOOTER.length = 8 := rfl
  have hsuf2 : PNG_FOOTER <:+ lastBytes 100 p := by
    unfold lastBytes
    exact suffix_drop_of_le hsuf (by omega)
  have hocc := occursAt_of_suffix hsuf2
  unfold bytesContains
  rw [findMagicBytes_isSome_of_occurs (by decide) (Nat.zero_le _) hocc]

lemma validateImage_png_true {pillow : List Nat → Option Unit} {p : List Nat} (hne : p ≠ [])
    (hc : bytesContains (lastBytes 100 p) PNG_FOOTER = true)
    (hp : (pillow p).isSome = true) : validateImage pillow p IFmt.png = true := by
  cases p with
  | nil => exact absurd rfl hne
  | cons a t => simp [validateImage, hc, hp]

lemma imgChooseHeader_png_zero (js : Option Nat) :
    imgChooseHeader js (some 0) = some (0, IFmt.png) := by
  cases js with
  | none => rfl
  | some j => simp [imgChooseHeader]

lemma imgChooseHeader_png_of_ge (js : Option Nat) (pos : Nat)
    (h : ∀ j, js = some j → pos ≤ j) :
    imgChooseHeader js (some pos) = some (pos, IFmt.png) := by
  cases js with
  | none => rfl
  | some j =>
    have := h j rfl
    simp [imgChooseHeader, Nat.not_lt.mpr this]

lemma imgInner_carve_step (pillow : List Nat → Option Unit) (sd ovf0 : List Nat)
    (fuel pos found : Nat) (outputs : List (List Nat × IFmt)) (fileStart : Nat) (fmt : IFmt)
    (fp : Nat) (hpos : pos < sd.length)
    (hch : imgChooseHeader (findMagicBytes sd JPEG_HEADER pos) (findMagicBytes sd PNG_HEADER pos)
      = some (fileStart, fmt))
    (hft : findMagicBytes sd (ifmtFooter fmt) (fileStart + (ifmtHeader fmt).length) = some fp)
    (hval : validateImage pillow ((sd.take (fp + (ifmtFooter fmt).length)).drop fileStart) fmt
      = true) :
    imgInner pillow sd ovf0 (fuel + 1) pos found outputs =
      imgInner pillow sd ovf0 fuel (fp + (ifmtFooter fmt).length) (found + 1)
        (outputs ++ [((sd.take (fp + (ifmtFooter fmt).length)).drop fileStart, fmt)]) := by
  simp only [imgInner, hch, hft, if_pos hpos, hval, if_true]

lemma imgInner_done_of_ge (pillow : List Nat → Option Unit) (sd ovf0 : List Nat)
    (fuel pos found : Nat) (outputs : List (List Nat × IFmt)) (h : sd.length ≤ pos) :
    imgInner pillow sd ovf0 fuel pos found outputs = ImgInnerRes.done found outputs := by
  cases fuel with
  | zero => rfl
  | succ n =>
    simp only [imgInner]
    rw [if_neg (by omega : ¬ pos < sd.length)]

lemma drainImgAux_no_pending (pillow : List Nat → Option Unit) :
    ∀ (fuel f tb br : Nat) (ov : List Nat) (ce : Nat) (out : List (List Nat × IFmt)),
      (drainImgAux pillow fuel ⟨f, tb, br, ov, none, ce, out⟩).outputs = out ∧
      (drainImgAux pillow fuel ⟨f, tb, br, ov, none, ce, out⟩).found = f := by
  intro fuel
  induction fuel with
  | zero => intros; exact ⟨rfl, rfl⟩
  | succ n ih =>
    intro f tb br ov ce out
    by_cases hc : 99 ≤ ce
    · rw [drainImgAux_succ_stop (imgEmptyStep_stop pillow f tb br ov none ce out hc)]
      exact ⟨rfl, rfl⟩
    · rw [drainImgAux_succ_cont (imgEmptyStep_nopending pillow f tb br ov ce out (by omega))]
      exact ih f (tb + 1) br ov (ce + 1) out

lemma drainImg_no_pending (pillow : List Nat → Option Unit) (st : ImgState)
    (hpend : st.pending = none) :
    (drainImg pillow st).outputs = st.outputs ∧ (drainImg pillow st).found = st.found := by
  obtain ⟨f, tb, br, ov, pd, ce, out⟩ := st
  simp only at hpend
  subst hpend
  unfold drainImg
  exact drainImgAux_no_pending pillow _ f tb br ov ce out

/-- Well-formedness of a PNG byte buffer as the carving engine needs it: it
starts with the PNG header, ends with the IEND footer, is at least 16 bytes
(header and footer do not overlap), the footer bytes occur nowhere else in
the buffer, and the decode collaborator accepts it. -/
def pngWellFormed (pillow : List Nat → Option Unit) (p : List Nat) : Prop :=
  PNG_HEADER <+: p ∧ PNG_FOOTER <:+ p ∧ 16 ≤ p.length ∧
  (∀ i, occursAt p PNG_FOOTER i → i = p.length - 8) ∧ (pillow p).isSome = true

/-- C4: a block consisting of two adjacent, back-to-back complete PNGs yields
exactly two recovered artifacts, saved in stream order. -/
theorem fr_C4_two_pngs (pillow : List Nat → Option Unit) (p1 p2 : List Nat)
    (h1 : pngWellFormed pillow p1) (h2 : pngWellFormed pillow p2) :
    (scanDevice pillow [p1 ++ p2]).outputs = [(p1, IFmt.png), (p2, IFmt.png)] ∧
    (scanDevice pillow [p1 ++ p2]).found = 2 := by
  obtain ⟨hpre1, hsuf1, hlen1, huniq1, hpil1⟩ := h1
  obtain ⟨hpre2, hsuf2, hlen2, huniq2, hpil2⟩ := h2
  have hfl : PNG_FOOTER.length = 8 := rfl
  have hfl2 : (ifmtFooter IFmt.png).length = 8 := rfl
  have hL : (p1 ++ p2).length = p1.length + p2.length := List.length_append p1 p2
  -- iteration 1 facts
  have hpng1 : findMagicBytes (p1 ++ p2) PNG_HEADER 0 = some 0 :=
    findMagicBytes_self (by decide) (occursAt_of_startsWith (hpre1.trans (List.prefix_append p1 p2)))
  have hch1 : imgChooseHeader (findMagicBytes (p1 ++ p2) JPEG_HEADER 0)
      (findMagicBytes (p1 ++ p2) PNG_HEADER 0) = some (0, IFmt.png) := by
    rw [hpng1]
    exact imgChooseHeader_png_zero _
  have hoccf1 : occursAt (p1 ++ p2) PNG_FOOTER (p1.length - 8) := by
    have hof := occursAt_of_suffix hsuf1
    rw [hfl] at hof
    exact (occursAt_append_left_iff (by omega)).mpr hof
  have hft1 : findMagicBytes (p1 ++ p2) PNG_FOOTER 8 = some (p1.length - 8) := by
    apply (findMagicBytes_eq_some_iff (by decide)).mpr
    refine ⟨by omega, hoccf1, ?_⟩
    intro q hq1 hq2 hocc
    have hqp1 : occursAt p1 PNG_FOOTER q :=
      (occursAt_append_left_iff (by omega)).mp hocc
    have := huniq1 q hqp1
    omega
  have hval1 : validateImage pillow p1 IFmt.png = true :=
    validateImage_png_true (by intro h; subst h; simp at hlen1)
      (pngFooter_in_last100 hsuf1 hlen1) hpil1
  have he1 : (p1.length - 8) + (ifmtFooter IFmt.png).length = p1.length := by
    rw [hfl2]; omega
  have hfd1 : (((p1 ++ p2).take ((p1.length - 8) + (ifmtFooter IFmt.png).length)).drop 0) = p1 := by
    rw [he1, List.drop_zero, List.take_left]
  have hvalE1 : validateImage pillow
      (((p1 ++ p2).take ((p1.length - 8) + (ifmtFooter IFmt.png).length)).drop 0) IFmt.png
      = true := by
    rw [hfd1]; exact hval1
  -- iteration 2 facts
  have hpng2 : findMagicBytes (p1 ++ p2) PNG_HEADER p1.length = some p1.length := by
    apply findMagicBytes_self (by decide)
    have hocc0 : occursAt (p1 ++ p2) PNG_HEADER (p1.length + 0) :=
      occursAt_append_right_iff.mpr (occursAt_of_startsWith hpre2)
    simpa using hocc0
  have hch2 : imgChooseHeader (findMagicBytes (p1 ++ p2) JPEG_HEADER p1.length)
      (findMagicBytes (p1 ++ p2) PNG_HEADER p1.length) = some (p1.length, IFmt.png) := by
    rw [hpng2]
    exact imgChooseHeader_png_of_ge _ _ (fun j hj => findMagicBytes_ge (by decide) hj)
  have hoccf2 : occursAt (p1 ++ p2) PNG_FOOTER (p1.length + (p2.length - 8)) := by
    have hof := occursAt_of_suffix hsuf2
    rw [hfl] at hof
    exact occursAt_append_right_iff.mpr hof
  have hft2 : findMagicBytes (p1 ++ p2) PNG_FOOTER (p1.length + 8)
      = some (p1.length + (p2.length - 8)) := by
    apply (findMagicBytes_eq_some_iff (by decide)).mpr
    refine ⟨by omega, hoccf2, ?_⟩
    intro q hq1 hq2 hocc
    have hq : q = p1.length + (q - p1.length) := by omega
    rw [hq] at hocc
    have hqp2 : occursAt p2 PNG_FOOTER (q - p1.length) := occursAt_append_right_iff.mp hocc
    have := huniq2 _ hqp2
    omega
  have hval2 : validateImage pillow p2 IFmt.png = true :=
    validateImage_png_true (by intro h; subst h; simp at hlen2)
      (pngFooter_in_last100 hsuf2 hlen2) hpil2
  have he2 : (p1.length + (p2.length - 8)) + (ifmtFooter IFmt.png).length
      = (p1 ++ p2).length := by
    rw [hfl2, hL]; omega
  have hfd2 : (((p1 ++ p2).take ((p1.length + (p2.length - 8)) + (ifmtFooter IFmt.png).length)).drop
      p1.length) = p2 := by
    rw [he2, List.take_length]
    exact List.drop_left p1 p2
  have hvalE2 : validateImage pillow
      (((p1 ++ p2).take ((p1.length + (p2.length - 8)) + (ifmtFooter IFmt.png).length)).drop
        p1.length) IFmt.png = true := by
    rw [hfd2]; exact hval2
  -- central computation of the new-header search
  have hinner : imgInner pillow (p1 ++ p2) [] ((p1 ++ p2).length + 1) 0 0 []
      = ImgInnerRes.done 2 [(p1, IFmt.png), (p2, IFmt.png)] := by
    rw [imgInner_carve_step pillow (p1 ++ p2) [] (p1 ++ p2).length 0 0 [] 0 IFmt.png
      (p1.length - 8) (by omega) hch1 hft1 hvalE1]
    rw [hfd1, he1]
    simp only [List.nil_append, Nat.zero_add]
    obtain ⟨m, hm⟩ : ∃ m, (p1 ++ p2).length = m + 1 := ⟨(p1 ++ p2).length - 1, by omega⟩
    rw [hm]
    rw [imgInner_carve_step pillow (p1 ++ p2) [] m p1.length 1 [(p1, IFmt.png)] p1.length
      IFmt.png (p1.length + (p2.length - 8)) (by omega) hch2 hft2 hvalE2]
    rw [hfd2, he2]
    rw [imgInner_done_of_ge pillow (p1 ++ p2) [] m (p1 ++ p2).length 2 _ (Nat.le_refl _)]
    rfl
  -- assembling the full scan
  have hsdne : (p1 ++ p2).isEmpty = false := by
    have hlp : 0 < (p1 ++ p2).length := by rw [hL]; omega
    cases hpp : p1 ++ p2 with
    | nil => rw [hpp] at hlp; simp at hlp
    | cons a t => rfl
  have hlist : scanImgList pillow [p1 ++ p2] initImgState
      = (imgProcessBlock pillow initImgState (p1 ++ p2), false) := by
    simp [scanImgList, hsdne]
  have hscan : scanDevice pillow [p1 ++ p2]
      = drainImg pillow (imgProcessBlock pillow initImgState (p1 ++ p2)) := by
    unfold scanDevice
    rw [hlist]
    rfl
  have hpb : imgProcessBlock pillow initImgState (p1 ++ p2)
      = imgAfterPending pillow ⟨0, 1, 0 + (p1 ++ p2).length, [], none, 0, []⟩ (p1 ++ p2) := rfl
  have hap_out : (imgAfterPending pillow ⟨0, 1, 0 + (p1 ++ p2).length, [], none, 0, []⟩
      (p1 ++ p2)).outputs = [(p1, IFmt.png), (p2, IFmt.png)] := by
    unfold imgAfterPending
    dsimp only
    rw [hinner]
  have hap_found : (imgAfterPending pillow ⟨0, 1, 0 + (p1 ++ p2).length, [], none, 0, []⟩
      (p1 ++ p2)).found = 2 := by
    unfold imgAfterPending
    dsimp only
    rw [hinner]
  have hap_pend : (imgAfterPending pillow ⟨0, 1, 0 + (p1 ++ p2).length, [], none, 0, []⟩
      (p1 ++ p2)).pending = none := by
    unfold imgAfterPending
    dsimp only
    rw [hinner]
  have hdrain := drainImg_no_pending pillow
    (imgAfterPending pillow ⟨0, 1, 0 + (p1 ++ p2).length, [], none, 0, []⟩ (p1 ++ p2)) hap_pend
  constructor
  · rw [hscan, hpb, hdrain.1, hap_out]
  · rw [hscan, hpb, hdrain.2, hap_found]

set_option maxRecDepth 4000 in
/-- Witness for C4: two copies of the minimal 16-byte PNG (header directly
followed by footer) in one block are both recovered, in order. -/
theorem fr_C4_witness :
    pngWellFormed pillowAccept (PNG_HEADER ++ PNG_FOOTER) ∧
    (scanDevice pillowAccept [(PNG_HEADER ++ PNG_FOOTER) ++ (PNG_HEADER ++ PNG_FOOTER)]).outputs
      = [(PNG_HEADER ++ PNG_FOOTER, IFmt.png), (PNG_HEADER ++ PNG_FOOTER, IFmt.png)] := by
  have huniq : ∀ i, occursAt (PNG_HEADER ++ PNG_FOOTER) PNG_FOOTER i →
      i = (PNG_HEADER ++ PNG_FOOTER).length - 8 := by
    intro i h
    have hb := occursAt_add_length_le (by decide) h
    have e1 : PNG_FOOTER.length = 8 := rfl
    have e2 : (PNG_HEADER ++ PNG_FOOTER).length = 16 := rfl
    have hi : i ≤ 8 := by omega
    rw [e2]
    interval_cases i <;> revert h <;> decide
  have hwf : pngWellFormed pillowAccept (PNG_HEADER ++ PNG_FOOTER) :=
    ⟨by decide, by decide, by decide, huniq, rfl⟩
  exact ⟨hwf, (fr_C4_two_pngs pillowAccept _ _ hwf hwf).1⟩

end FileRescuer
